/-
Formal model of the ochre chat backend's per-session streaming run
orchestrator, checked against its natural-language specification.

The embedding covers:
* `app/agent/stream_runner.py` — `stream_once` (incremental tool-call
  assembly) and `run_tool_loop_streaming` (the streaming tool loop);
* `app/conversation/model.py` — `ConversationModel`: submission
  idempotency, in-flight cancellation, event-to-persistence mapping,
  modelled as a step function over an explicit session state, with the
  scheduler's interleavings represented as traces of labels;
* `app/sessions/store.py` — the transcript rows and `messages_for_llm`.

Conventions: Python `str(uuid4())` and database row ids are drawn from a
single fresh-`Nat` supply; `asyncio.create_task(send(...))` appends to an
event log in creation order (the asyncio ready queue is FIFO, so creation
order is delivery order); wall-clock timestamps and durations are not
modelled (no claim depends on them).
-/
import Mathlib

namespace Ochre

/-! ### Generic helpers -/

/-- Python `s.strip()`: drop whitespace from both ends (by code points). -/
def pyStrip (s : String) : String :=
  ⟨((s.data.dropWhile Char.isWhitespace).reverse.dropWhile Char.isWhitespace).reverse⟩

/-- Python `s[:n]`: the first `n` code points of `s`. -/
def pyTake (s : String) (n : Nat) : String :=
  ⟨s.data.take n⟩

/-- Concatenation of a list of strings, mirroring `"".join(...)`. -/
def concatList (l : List String) : String :=
  l.foldl (· ++ ·) ""

/-- Update the binding of `k` in an association list, mirroring mutation of
a Python `dict` entry: replaces in place if present, appends otherwise,
which preserves the dict's insertion order of keys. -/
def setAssoc {κ α : Type} [DecidableEq κ] : List (κ × α) → κ → α → List (κ × α)
  | [], k, v => [(k, v)]
  | (k', v') :: rest, k, v =>
    if k' = k then (k', v) :: rest else (k', v') :: setAssoc rest k v

/-- Ascending sort, mirroring Python `sorted(...)` on `Nat` keys. -/
def sortAsc (l : List Nat) : List Nat :=
  l.insertionSort (· ≤ ·)

/-- Keys in first-occurrence order, mirroring a Python dict's key order. -/
def firstOccurs (l : List Nat) : List Nat :=
  l.foldl (fun acc i => if i ∈ acc then acc else acc ++ [i]) []

/-- Overwrite-if-truthy step shared by the `id` and `name` slot fields. -/
def overwriteStep (acc : Option String) (frag : String) : Option String :=
  if frag = "" then acc else some frag

/-- Last truthy (nonempty) string of a list, if any: the value left in a
slot field that each nonempty fragment overwrites. -/
def lastNonempty (l : List String) : Option String :=
  l.foldl overwriteStep none

/-! ### Tool-call descriptors (the assembled `tool_calls` slot shape) -/

/-- The `function` sub-object of an assembled tool call:
`{"name": ..., "arguments": ...}` with `name` initially `None` and
`arguments` initially `""`. -/
structure ToolCallFunction where
  name : Option String
  arguments : String
deriving DecidableEq, Repr

/-- An assembled tool-call slot:
`{"id": ..., "type": "function", "function": {...}}`. -/
structure ToolCall where
  id : Option String
  tcType : String
  function : ToolCallFunction
deriving DecidableEq, Repr

/-- The fresh slot created by `tool_calls.setdefault(int(idx), ...)`. -/
def emptySlot : ToolCall :=
  ⟨none, "function", ⟨none, ""⟩⟩

/-! ### Transcript store (`app/sessions/store.py`) -/

/-- The `meta_json` dictionary of a message row. Each optional field models
presence of the corresponding key; `cancelledMark` models presence of any
"cancelled" marker key (the orchestrator never writes one). -/
structure Meta where
  requestId : Option String := none
  toolCallId : Option String := none
  name : Option String := none
  argsPreview : Option String := none
  toolCalls : Option (List ToolCall) := none
  cancelledMark : Bool := false
deriving DecidableEq, Repr

/-- A `messages` table row (`MessageRow`); `created_at` is represented by
list position in the transcript. -/
structure Msg where
  id : Nat
  role : String
  content : Option String
  meta : Meta
deriving DecidableEq, Repr

/-- One entry of the message list built for the upstream model: `role`,
optional `content`, and the carried-through tool fields when present. -/
structure LlmMsg where
  role : String
  content : Option String
  name : Option String
  toolCallId : Option String
  toolCalls : Option (List ToolCall)
deriving DecidableEq, Repr

/-- Projection of a stored row to its model-input form, carrying through
the known tool fields present in `meta`. -/
def toLlm (m : Msg) : LlmMsg :=
  ⟨m.role, m.content, m.meta.name, m.meta.toolCallId, m.meta.toolCalls⟩

/-- The `valid_call_ids` set of `messages_for_llm`: every nonempty string
id of a tool call recorded on any assistant message of the history. -/
def collectValidCallIds (msgs : List Msg) : List String :=
  msgs.foldl (fun acc m =>
    if m.role = "assistant" then
      match m.meta.toolCalls with
      | some tcs =>
        tcs.foldl (fun acc tc =>
          match tc.id with
          | some cid => if cid = "" then acc else if cid ∈ acc then acc else acc ++ [cid]
          | none => acc) acc
      | none => acc
    else acc) []

/-- `messages_for_llm`: project the transcript for the upstream model,
including a tool-role row only when its `tool_call_id` is a valid call id
of the history. -/
def messages_for_llm (msgs : List Msg) : List LlmMsg :=
  let valid := collectValidCallIds msgs
  msgs.filterMap (fun m =>
    if m.role = "tool" then
      match m.meta.toolCallId with
      | some t => if t ≠ "" ∧ t ∈ valid then some (toLlm m) else none
      | none => none
    else some (toLlm m))

/-- The ordering condition claimed of `messages_for_llm` output: every
tool entry's call id is recorded on some assistant entry strictly earlier
in the built list. -/
def earlierAssistantMatch (out : List LlmMsg) : Bool :=
  (List.range out.length).all (fun k =>
    match out.get? k with
    | some m =>
      if m.role = "tool" then
        (out.take k).any (fun a =>
          a.role = "assistant" &&
            match a.toolCalls with
            | some tcs => tcs.any (fun tc => tc.id == m.toolCallId)
            | none => false)
      else true
    | none => true)

/-! ### Stream driver (`stream_once` of `app/agent/stream_runner.py`) -/

/-- The `function` sub-object of a streamed tool-call delta
(`tc.get("function") or {}`). -/
structure TCDeltaFunction where
  name : Option String := none
  arguments : Option String := none
deriving DecidableEq, Repr

/-- One incremental tool-call delta of an upstream frame, addressed by a
positional `index`. -/
structure TCDelta where
  index : Option Nat := none
  id : Option String := none
  function : Option TCDeltaFunction := none
deriving DecidableEq, Repr

/-- The id fragment a delta carries (empty when absent). -/
def fragIdOf (tc : TCDelta) : String := tc.id.getD ""

/-- The name fragment a delta carries (empty when absent). -/
def fragNameOf (tc : TCDelta) : String := ((tc.function.getD ⟨none, none⟩).name).getD ""

/-- The argument fragment a delta carries (empty when absent). -/
def fragArgOf (tc : TCDelta) : String := ((tc.function.getD ⟨none, none⟩).arguments).getD ""

/-- One upstream frame, reduced to its first choice's `delta` fields and
`finish_reason` (a frame with no choices has every field absent). -/
structure Frame where
  content : Option String := none
  toolCalls : Option (List TCDelta) := none
  finishReason : Option String := none
deriving DecidableEq, Repr

/-- Fold one tool-call delta into a slot: truthy `id` and `name` overwrite
the slot's fields, truthy `arguments` is concatenated onto the slot's
accumulated argument text. -/
def updateSlot (tc : TCDelta) (slot : ToolCall) : ToolCall :=
  let slot :=
    match tc.id with
    | some i => if i = "" then slot else { slot with id := some i }
    | none => slot
  let fn := tc.function.getD ⟨none, none⟩
  let slot :=
    match fn.name with
    | some n => if n = "" then slot else { slot with function := { slot.function with name := some n } }
    | none => slot
  match fn.arguments with
  | some a =>
    if a = "" then slot
    else { slot with function := { slot.function with arguments := slot.function.arguments ++ a } }
  | none => slot

/-- Apply one tool-call delta to the slot table: deltas without an index
are skipped; otherwise the slot is created on first touch (`setdefault`)
and updated in place. -/
def applyTCDelta (slots : List (Nat × ToolCall)) (tc : TCDelta) : List (Nat × ToolCall) :=
  match tc.index with
  | none => slots
  | some idx => setAssoc slots idx (updateSlot tc ((slots.lookup idx).getD emptySlot))

/-- Mutable state of `stream_once`: the text buffer, the index-keyed slot
table (in dict insertion order), and the last truthy `finish_reason`. -/
structure StreamAcc where
  buf : List String
  toolCalls : List (Nat × ToolCall)
  finishReason : Option String
deriving DecidableEq, Repr

/-- Process one frame: update `finish_reason`, append truthy content to
the buffer (surfacing it via `on_delta`), and fold the tool-call deltas. -/
def procFrame (acc : StreamAcc) (f : Frame) : StreamAcc :=
  let fr :=
    match f.finishReason with
    | some r => if r = "" then acc.finishReason else some r
    | none => acc.finishReason
  let buf :=
    match f.content with
    | some t => if t = "" then acc.buf else acc.buf ++ [t]
    | none => acc.buf
  let tcs :=
    match f.toolCalls with
    | some ds => ds.foldl applyTCDelta acc.toolCalls
    | none => acc.toolCalls
  ⟨buf, tcs, fr⟩

/-- Consume frames in order; `cancelSet k` is whether the cancellation
event is set when the `k`-th frame has been received, in which case the
driver stops without processing it or any later frame. -/
def streamFrames (cancelSet : Nat → Bool) : Nat → StreamAcc → List Frame → StreamAcc
  | _, acc, [] => acc
  | k, acc, f :: fs =>
    if cancelSet k then acc else streamFrames cancelSet (k + 1) (procFrame acc f) fs

/-- Result of one streaming step. -/
structure StreamResult where
  assistantText : String
  toolCalls : List ToolCall
  finishReason : Option String
deriving DecidableEq, Repr

/-- The driver `stream_once`: besides the `StreamResult`, it returns the
list of texts surfaced through the `on_delta` callback, in call order
(identical to the buffer the result text is joined from). -/
def stream_once (frames : List Frame) (cancelSet : Nat → Bool) : StreamResult × List String :=
  let acc := streamFrames cancelSet 0 ⟨[], [], none⟩ frames
  let ordered := (sortAsc (acc.toolCalls.map Prod.fst)).filterMap (fun k => acc.toolCalls.lookup k)
  (⟨String.join acc.buf, ordered, acc.finishReason⟩, acc.buf)

/-- The never-fired cancellation signal. -/
def noCancel : Nat → Bool := fun _ => false

/-! Specification-side views of the assembled tool calls, phrased directly
over the raw frame sequence. -/

/-- All tool-call deltas of a frame list, flattened in arrival order. -/
def frameDeltas (frames : List Frame) : List TCDelta :=
  (frames.map (fun f => f.toolCalls.getD [])).flatten

/-- The deltas addressed to index `i`, in arrival order. -/
def indexFragments (frames : List Frame) (i : Nat) : List TCDelta :=
  (frameDeltas frames).filter (fun tc => tc.index == some i)

/-- Argument text for index `i`: concatenation, in arrival order, of every
argument fragment delivered for that index. -/
def argText (frames : List Frame) (i : Nat) : String :=
  concatList ((indexFragments frames i).map fragArgOf)

/-- Name for index `i`: the last nonempty name fragment delivered for that
index, if any. -/
def specName (frames : List Frame) (i : Nat) : Option String :=
  lastNonempty ((indexFragments frames i).map fragNameOf)

/-- Id for index `i`: the last nonempty id fragment delivered for it. -/
def specId (frames : List Frame) (i : Nat) : Option String :=
  lastNonempty ((indexFragments frames i).map fragIdOf)

/-- The fully assembled slot the spec predicts for index `i`. -/
def specSlot (frames : List Frame) (i : Nat) : ToolCall :=
  ⟨specId frames i, "function", ⟨specName frames i, argText frames i⟩⟩

/-- The texts surfaced through `on_delta`, in arrival order: the truthy
content fields of the frames. -/
def streamTokens (frames : List Frame) : List String :=
  frames.filterMap (fun f =>
    match f.content with
    | some t => if t = "" then none else some t
    | none => none)

/-- The indices addressed by any delta, sorted ascending. -/
def specIndices (frames : List Frame) : List Nat :=
  sortAsc (firstOccurs ((frameDeltas frames).filterMap (fun tc => tc.index)))

/-! ### Streaming tool loop (`run_tool_loop_streaming`) -/

/-- Outcome of `dispatch_tool_call` for one invocation: a result, a
raised `ToolStructuredError`, or any other raised exception. -/
inductive ToolOutcome where
  | ok (result : String)
  | structuredError (payload : String)
  | exn (message : String)
deriving DecidableEq, Repr

/-- The serialized `content` of a tool-result message, one constructor per
`json.dumps` shape the loop produces. -/
inductive ToolContent where
  | okResult (result : String)
  | structuredPayload (payload : String)
  | errorMessage (message : String)
deriving DecidableEq, Repr

/-- A message of the loop's in-memory history `msgs`. -/
inductive LoopMsg where
  | base (m : LlmMsg)
  | assistantWithToolCalls (content : String) (toolCalls : List ToolCall)
  | toolResult (toolCallId : Option String) (name : String) (content : ToolContent)
  | assistantFinal (content : String)
deriving DecidableEq, Repr

/-- An event the loop pushes through `on_event` (wall-clock durations are
not modelled and appear as 0). -/
inductive LoopEvent where
  | chatDelta (text : String)
  | toolStart (tool : String) (argsPreview : String)
  | toolEnd (tool : String) (ok : Bool) (durationMs : Nat)
deriving DecidableEq, Repr

/-- Python `fn.get("arguments") or "\x7b\x7d"`. -/
def rawArgsOf (tc : ToolCall) : String :=
  if tc.function.arguments = "" then "\x7b\x7d" else tc.function.arguments

/-- The try/except around `dispatch_tool_call`: a success serializes the
result, a `ToolStructuredError` serializes its payload with `ok := false`,
any other exception serializes its string with `ok := false`. -/
def toolResultContent : ToolOutcome → ToolContent × Bool
  | .ok r => (.okResult r, true)
  | .structuredError p => (.structuredPayload p, false)
  | .exn m => (.errorMessage m, false)

/-- The per-step for-loop over the assembled tool calls: emit `tool.start`,
invoke the tool, emit `tool.end` with the success flag, and append the
tool-result message keyed by the call id; every exception is caught and
becomes content, so each call yields exactly one message and the
iteration always reaches the next call. -/
def processToolCalls (dispatch : String → String → ToolOutcome) :
    List ToolCall → List LoopMsg × List LoopEvent
  | [] => ([], [])
  | tc :: rest =>
    let name := tc.function.name.getD ""
    let raw := rawArgsOf tc
    let res := toolResultContent (dispatch name raw)
    let pr := processToolCalls dispatch rest
    (LoopMsg.toolResult tc.id name res.1 :: pr.1,
     LoopEvent.toolStart name (pyTake raw 200) :: LoopEvent.toolEnd name res.2 0 :: pr.2)

/-- The loop body of `run_tool_loop_streaming`. `streams k` is the frame
sequence of the `k`-th upstream call, `streamCancel k` the cancellation
signal it observes per frame, and `loopCancel k` the signal's value at the
post-stream check. Tokens are appended to `accumulated_final` and
surfaced as `chat.delta` events as they arrive. -/
def runToolLoop (streams : Nat → List Frame) (dispatch : String → String → ToolOutcome)
    (streamCancel : Nat → Nat → Bool) (loopCancel : Nat → Bool) :
    Nat → Nat → List LoopMsg → List String → List LoopEvent →
      String × List LoopMsg × List LoopEvent
  | _, 0, msgs, accTokens, evs => (concatList accTokens, msgs, evs)
  | stepIdx, fuel + 1, msgs, accTokens, evs =>
    let res := stream_once (streams stepIdx) (streamCancel stepIdx)
    let accTokens := accTokens ++ res.2
    let evs := evs ++ res.2.map LoopEvent.chatDelta
    if loopCancel stepIdx then (concatList accTokens, msgs, evs)
    else if res.1.toolCalls.isEmpty then
      (concatList accTokens, msgs ++ [LoopMsg.assistantFinal res.1.assistantText], evs)
    else
      let msgs := msgs ++ [LoopMsg.assistantWithToolCalls res.1.assistantText res.1.toolCalls]
      let pr := processToolCalls dispatch res.1.toolCalls
      runToolLoop streams dispatch streamCancel loopCancel
        (stepIdx + 1) fuel (msgs ++ pr.1) accTokens (evs ++ pr.2)

/-- `run_tool_loop_streaming` entry point (`max_steps` defaults to 8 in
the source and is passed as 10 by the orchestrator). -/
def run_tool_loop_streaming (streams : Nat → List Frame)
    (dispatch : String → String → ToolOutcome) (streamCancel : Nat → Nat → Bool)
    (loopCancel : Nat → Bool) (baseMessages : List LoopMsg) (maxSteps : Nat) :
    String × List LoopMsg × List LoopEvent :=
  runToolLoop streams dispatch streamCancel loopCancel 0 maxSteps baseMessages [] []

/-- The single tool-result message one call contributes. -/
def toolMsgFor (dispatch : String → String → ToolOutcome) (tc : ToolCall) : LoopMsg :=
  LoopMsg.toolResult tc.id (tc.function.name.getD "")
    (toolResultContent (dispatch (tc.function.name.getD "") (rawArgsOf tc))).1

/-- The event pair one call contributes. -/
def toolEventsFor (dispatch : String → String → ToolOutcome) (tc : ToolCall) : List LoopEvent :=
  [LoopEvent.toolStart (tc.function.name.getD "") (pyTake (rawArgsOf tc) 200),
   LoopEvent.toolEnd (tc.function.name.getD "")
     (toolResultContent (dispatch (tc.function.name.getD "") (rawArgsOf tc))).2 0]

/-! ### Conversation model (`app/conversation/model.py`) -/

/-- Run status: `running|done|error|cancelled`. -/
inductive RunStatus where
  | running
  | done
  | error
  | cancelled
deriving DecidableEq, Repr

/-- The not-yet-finalized assistant segment of the active run. -/
structure OpenAssistant where
  messageId : Nat
  bufferText : String
deriving DecidableEq, Repr

/-- `ActiveRun`, extended with a `runId` identity so superseded run
objects stay observable; timestamps are not modelled. -/
structure ActiveRun where
  runId : Nat
  requestId : String
  model : String
  status : RunStatus
  cancelEvent : Bool
  openAssistant : Option OpenAssistant
  toolMeta : List (String × String)
deriving DecidableEq, Repr

/-- A delivery-channel event, in `create_task(send(...))` creation order. -/
inductive Event where
  | chatStarted (requestId : String) (messageId : Option Nat)
  | chatDelta (requestId : String) (text : String) (messageId : Nat)
  | chatDone (requestId : String) (messageId : Option Nat)
  | runError (requestId : String) (message : String)
  | runCancelled (requestId : String) (reason : String)
  | toolStart (requestId tool tcId argsPreview : String)
  | toolEnd (requestId tool tcId : String) (ok : Bool) (durationMs : Nat)
  | toolOutput (requestId tool tcId output : String)
  | chatUsage (requestId : String)
deriving DecidableEq, Repr

/-- State of one session's `ConversationModel` together with its
transcript and delivery log. `runs` holds every `ActiveRun` object ever
created, mutated in place by `runId`; `activeRunId` is the
`self.active_run` reference; `seenRequestIds` is the key set of
`_seen_request_ids` (only membership is ever read); `nextId` is the fresh
supply for row ids, uuids and run identities. -/
structure SessionState where
  activeRunId : Option Nat
  runs : List ActiveRun
  seenRequestIds : List String
  msgs : List Msg
  events : List Event
  nextId : Nat
deriving DecidableEq, Repr

/-- The run object a `runId` refers to. -/
def SessionState.findRun (s : SessionState) (rid : Nat) : Option ActiveRun :=
  s.runs.find? (fun r => r.runId == rid)

/-- The dereferenced `self.active_run`. -/
def SessionState.theActiveRun (s : SessionState) : Option ActiveRun :=
  s.activeRunId.bind s.findRun

/-- Mutate the run object with identity `rid` in place. -/
def SessionState.updateRun (s : SessionState) (rid : Nat) (f : ActiveRun → ActiveRun) : SessionState :=
  { s with runs := s.runs.map (fun r => if r.runId = rid then f r else r) }

/-- `asyncio.create_task(send(session_id, ...))`: append to the log. -/
def SessionState.emit (s : SessionState) (e : Event) : SessionState :=
  { s with events := s.events ++ [e] }

/-- `add_message`: insert a row with a fresh id and return its id. -/
def SessionState.addMessage (s : SessionState) (role : String) (content : Option String)
    (meta : Meta) : SessionState × Nat :=
  ({ s with msgs := s.msgs ++ [⟨s.nextId, role, content, meta⟩], nextId := s.nextId + 1 },
   s.nextId)

/-- `update_message_content` without `meta`: replace the row's content. -/
def SessionState.updateMessageContent (s : SessionState) (mid : Nat) (content : String) :
    SessionState :=
  { s with msgs := s.msgs.map (fun m =>
      if m.id = mid then { m with content := some content } else m) }

/-- `update_message_content` with `meta = {"tool_calls": ...}`: replace
the content and merge the tool calls into the row's meta. -/
def SessionState.updateMessageContentToolCalls (s : SessionState) (mid : Nat) (content : String)
    (tcs : List ToolCall) : SessionState :=
  { s with msgs := s.msgs.map (fun m =>
      if m.id = mid then
        { m with content := some content, meta := { m.meta with toolCalls := some tcs } }
      else m) }

/-- The row with id `mid`, if stored. -/
def SessionState.findMsg (s : SessionState) (mid : Nat) : Option Msg :=
  s.msgs.find? (fun m => m.id == mid)

/-- `_cancel_inflight_locked`: synchronously (it contains no awaitable
suspension) mark the active run cancelled, set its cancel event, persist
a nonempty buffered segment, schedule the `run.cancelled` notification,
and clear the active-run slot. No "cancelled" marker is written to the
persisted row, and the run's task is neither cancelled nor awaited. -/
def cancel_inflight_locked (s : SessionState) (reason : String) : SessionState :=
  match s.theActiveRun with
  | none => s
  | some r =>
    let s :=
      if r.status = RunStatus.running then
        let s := s.updateRun r.runId
          (fun r => { r with status := RunStatus.cancelled, cancelEvent := true })
        match r.openAssistant with
        | some oa =>
          if oa.bufferText = "" then s else s.updateMessageContent oa.messageId oa.bufferText
        | none => s
      else s
    let s := s.emit (Event.runCancelled r.requestId reason)
    { s with activeRunId := none }

/-- `DEFAULT_MODEL_FALLBACK` of `app/api/settings.py`. -/
def DEFAULT_MODEL_FALLBACK : String := "openai/gpt-4o-mini"

/-- `model or get_setting(DEFAULT_MODEL_KEY, DEFAULT_MODEL_FALLBACK) or
DEFAULT_MODEL_FALLBACK`, with the settings store (an external service)
holding no value. -/
def chosenModel (model : Option String) : String :=
  match model with
  | some m => if m = "" then DEFAULT_MODEL_FALLBACK else m
  | none => DEFAULT_MODEL_FALLBACK

/-- The idempotency guard of `submit_user_message`:
`request_id in self._seen_request_ids and (self.active_run is None or
self.active_run.request_id != request_id)`. -/
def isReplay (s : SessionState) (request_id : String) : Bool :=
  decide (request_id ∈ s.seenRequestIds) &&
    (match s.theActiveRun with
     | none => true
     | some r => decide (r.requestId ≠ request_id))

/-- The cancel guard of `submit_user_message`: a run is active, running,
and belongs to a different `request_id`. -/
def shouldCancelInflight (s : SessionState) (request_id : String) : Bool :=
  match s.theActiveRun with
  | some r => decide (r.status = RunStatus.running) && decide (r.requestId ≠ request_id)
  | none => false

/-- `submit_user_message`: idempotent submit; starts (or re-acks) a run.
The body runs under the session lock with no suspension point (the
awaited cancellation helper never suspends), so it is one atomic step;
the launched task is represented by later trace labels. -/
def submit_user_message (s : SessionState) (request_id content : String)
    (model : Option String) : SessionState :=
  let content := pyStrip content
  if content = "" then s
  else if isReplay s request_id then
    s.emit (Event.chatStarted request_id none)
  else
    let s := if shouldCancelInflight s request_id then cancel_inflight_locked s "new_message" else s
    let s := (s.addMessage "user" (some content) { requestId := some request_id }).1
    let runId := s.nextId
    let s := { s with nextId := s.nextId + 1 }
    let s := { s with
      runs := s.runs ++
        [(⟨runId, request_id, chosenModel model, RunStatus.running, false, none, []⟩ : ActiveRun)],
      activeRunId := some runId }
    let s := { s with seenRequestIds :=
      if request_id ∈ s.seenRequestIds then s.seenRequestIds else s.seenRequestIds ++ [request_id] }
    s.emit (Event.chatStarted request_id none)

/-- `_on_chat_delta`: on the first token the source inserts an assistant
row, points `open_assistant` at a fresh uuid unrelated to that row and
emits `chat.started`, then inserts a second row, re-points
`open_assistant` at it and emits `chat.started` again; every token is
appended to the buffer and delivered as `chat.delta` referencing the
current `open_assistant` message id. The trailing `none` branches are
unreachable. -/
def on_chat_delta (s : SessionState) (request_id text : String) : SessionState :=
  match s.theActiveRun with
  | none => s
  | some r =>
    if r.requestId ≠ request_id then s
    else
      let s :=
        match r.openAssistant with
        | some _ => s
        | none =>
          let oaId := s.nextId
          let s := { s with nextId := s.nextId + 1 }
          let s := (s.addMessage "assistant" (some "") { requestId := some request_id }).1
          let s := s.updateRun r.runId (fun r => { r with openAssistant := some ⟨oaId, ""⟩ })
          let s := s.emit (Event.chatStarted request_id (some oaId))
          let srow := s.addMessage "assistant" (some "") { requestId := some request_id }
          let s := srow.1
          let s := s.updateRun r.runId (fun r => { r with openAssistant := some ⟨srow.2, ""⟩ })
          s.emit (Event.chatStarted request_id (some srow.2))
      match s.theActiveRun with
      | some r2 =>
        match r2.openAssistant with
        | some oa =>
          let s := s.updateRun r2.runId
            (fun r => { r with openAssistant := some ⟨oa.messageId, oa.bufferText ++ text⟩ })
          s.emit (Event.chatDelta request_id text oa.messageId)
        | none => s
      | none => s

/-- `_on_assistant_tool_calls`: persist the accumulated buffer and the
tool calls into the open assistant row's meta. -/
def on_assistant_tool_calls (s : SessionState) (request_id : String)
    (tool_calls : List ToolCall) : SessionState :=
  match s.theActiveRun with
  | none => s
  | some r =>
    if r.requestId ≠ request_id then s
    else
      match r.openAssistant with
      | some oa => s.updateMessageContentToolCalls oa.messageId oa.bufferText tool_calls
      | none => s

/-- `_on_chat_usage`: delivery only. -/
def on_chat_usage (s : SessionState) (request_id : String) : SessionState :=
  s.emit (Event.chatUsage request_id)

/-- `_on_tool_start`: record the args preview on the run and deliver. -/
def on_tool_start (s : SessionState) (request_id tool tc_id args_preview : String) : SessionState :=
  let s :=
    match s.theActiveRun with
    | some r =>
      if r.requestId = request_id then
        s.updateRun r.runId (fun r => { r with toolMeta := setAssoc r.toolMeta tc_id args_preview })
      else s
    | none => s
  s.emit (Event.toolStart request_id tool tc_id args_preview)

/-- `_on_tool_end`: delivery only. -/
def on_tool_end (s : SessionState) (request_id tool tc_id : String) (ok : Bool)
    (duration_ms : Nat) : SessionState :=
  s.emit (Event.toolEnd request_id tool tc_id ok duration_ms)

/-- `_on_tool_output`: persist a tool-role row linked to the call id and
deliver. -/
def on_tool_output (s : SessionState) (request_id tool tc_id output : String) : SessionState :=
  let preview :=
    match s.theActiveRun with
    | some r => if r.requestId = request_id then r.toolMeta.lookup tc_id else none
    | none => none
  let s := (s.addMessage "tool" (some output)
    { requestId := some request_id, toolCallId := some tc_id, name := some tool,
      argsPreview := preview }).1
  s.emit (Event.toolOutput request_id tool tc_id output)

/-- How the awaited tool loop ends for a run's task: returns normally,
raises an exception, or the task is cancelled (`asyncio.CancelledError`). -/
inductive TaskOutcome where
  | completed
  | raised (message : String)
  | cancelledError
deriving DecidableEq, Repr

/-- The terminal lock-block at the tail of `_run_generation`. Each branch
re-checks that the session's active run still matches this task's
`request_id` before transitioning to a terminal status. -/
def run_generation_finish (s : SessionState) (request_id : String) : TaskOutcome → SessionState
  | .completed =>
    match s.theActiveRun with
    | some r =>
      if r.requestId = request_id then
        let s := s.updateRun r.runId (fun r => { r with status := RunStatus.done })
        let s :=
          match r.openAssistant with
          | some oa =>
            let s := s.updateMessageContent oa.messageId oa.bufferText
            s.emit (Event.chatDone request_id (some oa.messageId))
          | none => s.emit (Event.chatDone request_id none)
        { s with activeRunId := none }
      else s
    | none => s
  | .raised msg =>
    match s.theActiveRun with
    | some r =>
      if r.requestId = request_id then
        let s := s.updateRun r.runId (fun r => { r with status := RunStatus.error })
        let s := s.emit (Event.runError request_id msg)
        { s with activeRunId := none }
      else s
    | none => s
  | .cancelledError =>
    match s.theActiveRun with
    | some r => if r.requestId = request_id then cancel_inflight_locked s "task_cancelled" else s
    | none => s

/-- One atomic step of the session: a lock-protected block of
`submit_user_message`, an `on_event` callback fired synchronously by the
run's task, or the task's terminal block. -/
inductive Label where
  | submit (request_id content : String) (model : Option String)
  | deltaTok (request_id text : String)
  | assistantToolCalls (request_id : String) (tool_calls : List ToolCall)
  | usage (request_id : String)
  | toolStartEv (request_id tool tc_id args_preview : String)
  | toolEndEv (request_id tool tc_id : String) (ok : Bool) (duration_ms : Nat)
  | toolOutputEv (request_id tool tc_id output : String)
  | taskFinished (request_id : String) (outcome : TaskOutcome)
deriving DecidableEq, Repr

/-- Apply one step. -/
def step (s : SessionState) : Label → SessionState
  | .submit rid content model => submit_user_message s rid content model
  | .deltaTok rid text => on_chat_delta s rid text
  | .assistantToolCalls rid tcs => on_assistant_tool_calls s rid tcs
  | .usage rid => on_chat_usage s rid
  | .toolStartEv rid tool tcId ap => on_tool_start s rid tool tcId ap
  | .toolEndEv rid tool tcId ok ms => on_tool_end s rid tool tcId ok ms
  | .toolOutputEv rid tool tcId out => on_tool_output s rid tool tcId out
  | .taskFinished rid outc => run_generation_finish s rid outc

/-- Run a trace of steps. -/
def runTrace (s : SessionState) : List Label → SessionState
  | [] => s
  | l :: ls => runTrace (step s l) ls

/-- A fresh session (`ConversationModel.__init__`). -/
def initState : SessionState := ⟨none, [], [], [], [], 0⟩

/-- Terminal events of a request: `chat.done`, `run.error`,
`run.cancelled`. -/
def isTerminalFor (rid : String) : Event → Bool
  | .chatDone r _ => r == rid
  | .runError r _ => r == rid
  | .runCancelled r _ => r == rid
  | _ => false

/-- Number of terminal events delivered for a request id. -/
def countTerminal (events : List Event) (rid : String) : Nat :=
  events.countP (isTerminalFor rid)

/-- Whether some run of the session with this request id has reached a
terminal status. -/
def hasTerminalRun (s : SessionState) (rid : String) : Bool :=
  s.runs.any (fun r => r.requestId == rid && !(r.status == RunStatus.running))

/-- The inductive invariant of a session: the dereferenced active run is
always running; while a request id's run is active, every run object with
that request id is still running; run request ids are recorded in the
seen-set; run identities are fresh and distinct; and each request id has
received exactly one terminal event precisely when one of its runs has
reached a terminal status. -/
def Inv (s : SessionState) : Prop :=
  (∀ r, s.theActiveRun = some r → r.status = RunStatus.running)
  ∧ (∀ r, s.theActiveRun = some r →
      ∀ x ∈ s.runs, x.requestId = r.requestId → x.status = RunStatus.running)
  ∧ (∀ x ∈ s.runs, x.requestId ∈ s.seenRequestIds)
  ∧ (∀ x ∈ s.runs, x.runId < s.nextId)
  ∧ (s.runs.map (fun r => r.runId)).Nodup
  ∧ (∀ rid, countTerminal s.events rid = if hasTerminalRun s rid then 1 else 0)

/-! ### Lemmas on the slot table -/

theorem lookup_setAssoc_self (l : List (Nat × ToolCall)) (k : Nat) (v : ToolCall) :
    (setAssoc l k v).lookup k = some v := by
  induction l with
  | nil => simp [setAssoc]
  | cons hd tl ih =>
    obtain ⟨k', v'⟩ := hd
    by_cases h : k' = k
    · subst h; simp [setAssoc]
    · have hb : (k == k') = false := beq_false_of_ne (Ne.symm h)
      simp [setAssoc, h, List.lookup, hb, ih]

theorem lookup_setAssoc_ne (l : List (Nat × ToolCall)) (k j : Nat) (v : ToolCall)
    (h : j ≠ k) : (setAssoc l k v).lookup j = l.lookup j := by
  have hb : (j == k) = false := beq_false_of_ne h
  induction l with
  | nil => simp [setAssoc, List.lookup, hb]
  | cons hd tl ih =>
    obtain ⟨k', v'⟩ := hd
    by_cases h' : k' = k
    · subst h'; simp [setAssoc, List.lookup, hb]
    · simp only [setAssoc, if_neg h', List.lookup]
      by_cases h'' : j = k'
      · simp [beq_iff_eq, h'']
      · simp [beq_false_of_ne h'', ih]

theorem map_fst_setAssoc (l : List (Nat × ToolCall)) (k : Nat) (v : ToolCall) :
    (setAssoc l k v).map Prod.fst =
      (if k ∈ l.map Prod.fst then l.map Prod.fst else l.map Prod.fst ++ [k]) := by
  induction l with
  | nil => simp [setAssoc]
  | cons hd tl ih =>
    obtain ⟨k', v'⟩ := hd
    by_cases h : k' = k
    · subst h; simp [setAssoc]
    · simp only [setAssoc, if_neg h, List.map_cons]
      rw [ih]
      by_cases hm : k ∈ tl.map Prod.fst <;> simp [hm, h, Ne.symm h]

theorem lookup_none_iff (l : List (Nat × ToolCall)) (k : Nat) :
    l.lookup k = none ↔ k ∉ l.map Prod.fst := by
  induction l with
  | nil => simp
  | cons hd tl ih =>
    obtain ⟨k', v'⟩ := hd
    by_cases h : k = k'
    · subst h; simp [List.lookup]
    · simp only [List.lookup, beq_false_of_ne h, List.map_cons, List.mem_cons]
      rw [ih]
      simp [h]

/-- Folding the deltas of a whole stream changes the slot at index `i`
exactly by folding the deltas addressed to `i`, starting from the current
slot value. -/
theorem lookup_foldl_applyTCDelta_some (ds : List TCDelta) :
    ∀ (slots : List (Nat × ToolCall)) (i : Nat) (s : ToolCall),
      slots.lookup i = some s →
      (ds.foldl applyTCDelta slots).lookup i =
        some ((ds.filter (fun tc => tc.index == some i)).foldl (fun s tc => updateSlot tc s) s) := by
  induction ds with
  | nil => intro slots i s h; simpa using h
  | cons tc ds ih =>
    intro slots i s h
    match htc : tc.index with
    | none =>
      have : applyTCDelta slots tc = slots := by simp [applyTCDelta, htc]
      simp only [List.foldl_cons, this, List.filter_cons, htc]
      simpa using ih slots i s h
    | some j =>
      by_cases hj : j = i
      · subst hj
        have hstep : (applyTCDelta slots tc).lookup j = some (updateSlot tc s) := by
          simp [applyTCDelta, htc, h, lookup_setAssoc_self]
        have := ih (applyTCDelta slots tc) j (updateSlot tc s) hstep
        simp only [List.foldl_cons, List.filter_cons, htc]
        simpa using this
      · have hstep : (applyTCDelta slots tc).lookup i = some s := by
          simp only [applyTCDelta, htc]
          rw [lookup_setAssoc_ne _ _ _ _ (Ne.symm hj)]
          exact h
        have := ih (applyTCDelta slots tc) i s hstep
        simp only [List.foldl_cons, List.filter_cons, htc]
        have hne : (tc.index == some i) = false := by simp [htc, hj]
        simp only [htc] at hne
        simpa [hne] using this

/-- A slot first touched during the stream accumulates exactly the deltas
addressed to it, starting from the fresh `setdefault` slot. -/
theorem lookup_foldl_applyTCDelta_none (ds : List TCDelta) :
    ∀ (slots : List (Nat × ToolCall)) (i : Nat),
      slots.lookup i = none →
      (ds.foldl applyTCDelta slots).lookup i =
        (if (ds.filter (fun tc => tc.index == some i)) = [] then none
         else some ((ds.filter (fun tc => tc.index == some i)).foldl (fun s tc => updateSlot tc s) emptySlot)) := by
  induction ds with
  | nil => intro slots i h; simpa using h
  | cons tc ds ih =>
    intro slots i h
    match htc : tc.index with
    | none =>
      have : applyTCDelta slots tc = slots := by simp [applyTCDelta, htc]
      simp only [List.foldl_cons, this, List.filter_cons, htc]
      simpa using ih slots i h
    | some j =>
      by_cases hj : j = i
      · subst hj
        have hstep : (applyTCDelta slots tc).lookup j = some (updateSlot tc emptySlot) := by
          simp [applyTCDelta, htc, h, lookup_setAssoc_self]
        have := lookup_foldl_applyTCDelta_some ds (applyTCDelta slots tc) j (updateSlot tc emptySlot) hstep
        simp only [List.foldl_cons, List.filter_cons, htc]
        simpa using this
      · have hstep : (applyTCDelta slots tc).lookup i = none := by
          simp only [applyTCDelta, htc]
          rw [lookup_setAssoc_ne _ _ _ _ (Ne.symm hj)]
          exact h
        have := ih (applyTCDelta slots tc) i hstep
        simp only [List.foldl_cons, List.filter_cons, htc]
        have hne : ((some j : Option Nat) == some i) = false := by simp [hj]
        simpa [hne] using this

/-- The key set of the slot table grows in first-occurrence order of the
indices addressed by the stream. -/
theorem map_fst_foldl_applyTCDelta (ds : List TCDelta) :
    ∀ (slots : List (Nat × ToolCall)),
      ((ds.foldl applyTCDelta slots).map Prod.fst) =
        (ds.filterMap (fun tc => tc.index)).foldl
          (fun ks i => if i ∈ ks then ks else ks ++ [i]) (slots.map Prod.fst) := by
  induction ds with
  | nil => intro slots; simp
  | cons tc ds ih =>
    intro slots
    match htc : tc.index with
    | none =>
      have : applyTCDelta slots tc = slots := by simp [applyTCDelta, htc]
      simp only [List.foldl_cons, this, List.filterMap_cons, htc]
      exact ih slots
    | some j =>
      have hstep : (applyTCDelta slots tc).map Prod.fst =
          (if j ∈ slots.map Prod.fst then slots.map Prod.fst else slots.map Prod.fst ++ [j]) := by
        simp [applyTCDelta, htc, map_fst_setAssoc]
      simp only [List.foldl_cons, List.filterMap_cons, htc]
      rw [ih (applyTCDelta slots tc), hstep]

theorem string_append_empty (s : String) : s ++ "" = s := by
  cases s
  show String.mk _ = String.mk _
  simp [String.append]

/-- One delta updates a slot by overwriting truthy id and name fragments
and appending the argument fragment. -/
theorem updateSlot_eq (tc : TCDelta) (s : ToolCall) :
    updateSlot tc s =
      ⟨overwriteStep s.id (fragIdOf tc), s.tcType,
       ⟨overwriteStep s.function.name (fragNameOf tc),
        s.function.arguments ++ fragArgOf tc⟩⟩ := by
  obtain ⟨tidx, tid, tfn⟩ := tc
  have happend := string_append_empty s.function.arguments
  match tid, tfn with
  | none, none =>
    simp [updateSlot, overwriteStep, fragIdOf, fragNameOf, fragArgOf, happend]
  | none, some ⟨fname, fargs⟩ =>
    match fname, fargs with
    | none, none => simp [updateSlot, overwriteStep, fragIdOf, fragNameOf, fragArgOf, happend]
    | none, some a =>
      by_cases ha : a = "" <;>
        simp [updateSlot, overwriteStep, fragIdOf, fragNameOf, fragArgOf, ha, happend]
    | some n, none =>
      by_cases hn : n = "" <;>
        simp [updateSlot, overwriteStep, fragIdOf, fragNameOf, fragArgOf, hn, happend]
    | some n, some a =>
      by_cases hn : n = "" <;> by_cases ha : a = "" <;>
        simp [updateSlot, overwriteStep, fragIdOf, fragNameOf, fragArgOf, hn, ha, happend]
  | some i, none =>
    by_cases hi : i = "" <;>
      simp [updateSlot, overwriteStep, fragIdOf, fragNameOf, fragArgOf, hi, happend]
  | some i, some ⟨fname, fargs⟩ =>
    match fname, fargs with
    | none, none =>
      by_cases hi : i = "" <;>
        simp [updateSlot, overwriteStep, fragIdOf, fragNameOf, fragArgOf, hi, happend]
    | none, some a =>
      by_cases hi : i = "" <;> by_cases ha : a = "" <;>
        simp [updateSlot, overwriteStep, fragIdOf, fragNameOf, fragArgOf, hi, ha, happend]
    | some n, none =>
      by_cases hi : i = "" <;> by_cases hn : n = "" <;>
        simp [updateSlot, overwriteStep, fragIdOf, fragNameOf, fragArgOf, hi, hn, happend]
    | some n, some a =>
      by_cases hi : i = "" <;> by_cases hn : n = "" <;> by_cases ha : a = "" <;>
        simp [updateSlot, overwriteStep, fragIdOf, fragNameOf, fragArgOf, hi, hn, ha, happend]

/-- Folding a list of deltas into a slot: ids and names keep the last
truthy fragment, argument text is the concatenation of all fragments. -/
theorem foldl_updateSlot_eq (ds : List TCDelta) :
    ∀ s : ToolCall,
      ds.foldl (fun s tc => updateSlot tc s) s =
        ⟨(ds.map fragIdOf).foldl overwriteStep s.id, s.tcType,
         ⟨(ds.map fragNameOf).foldl overwriteStep s.function.name,
          (ds.map fragArgOf).foldl (· ++ ·) s.function.arguments⟩⟩ := by
  induction ds with
  | nil => intro s; rfl
  | cons tc ds ih =>
    intro s
    simp only [List.foldl_cons, List.map_cons, updateSlot_eq tc s, ih]

theorem streamFrames_noCancel (fs : List Frame) :
    ∀ (k : Nat) (acc : StreamAcc), streamFrames noCancel k acc fs = fs.foldl procFrame acc := by
  induction fs with
  | nil => intro k acc; rfl
  | cons f fs ih => intro k acc; simp [streamFrames, noCancel, ih]

theorem toolCalls_foldl_procFrame (fs : List Frame) :
    ∀ acc : StreamAcc,
      (fs.foldl procFrame acc).toolCalls = (frameDeltas fs).foldl applyTCDelta acc.toolCalls := by
  induction fs with
  | nil => intro acc; simp [frameDeltas]
  | cons f fs ih =>
    intro acc
    have hstep : (procFrame acc f).toolCalls = (f.toolCalls.getD []).foldl applyTCDelta acc.toolCalls := by
      match h : f.toolCalls with
      | some ds => simp [procFrame, h]
      | none => simp [procFrame, h]
    have hsplit : frameDeltas (f :: fs) = (f.toolCalls.getD []) ++ frameDeltas fs := by
      simp [frameDeltas]
    rw [List.foldl_cons, ih, hstep, hsplit, List.foldl_append]

theorem buf_foldl_procFrame (fs : List Frame) :
    ∀ acc : StreamAcc, (fs.foldl procFrame acc).buf = acc.buf ++ streamTokens fs := by
  induction fs with
  | nil => intro acc; simp [streamTokens]
  | cons f fs ih =>
    intro acc
    have hstep : (procFrame acc f).buf = acc.buf ++ streamTokens [f] := by
      match h : f.content with
      | some t => by_cases ht : t = "" <;> simp [procFrame, streamTokens, h, ht]
      | none => simp [procFrame, streamTokens, h]
    have hsplit : streamTokens (f :: fs) = streamTokens [f] ++ streamTokens fs := by
      show streamTokens ([f] ++ fs) = _
      simp only [streamTokens, List.filterMap_append]
    rw [List.foldl_cons, ih, hstep, hsplit, List.append_assoc]

theorem mem_firstOccurs (l : List Nat) (i : Nat) : i ∈ firstOccurs l ↔ i ∈ l := by
  have main : ∀ (l acc : List Nat) (i : Nat),
      i ∈ l.foldl (fun acc i => if i ∈ acc then acc else acc ++ [i]) acc ↔ i ∈ acc ∨ i ∈ l := by
    intro l
    induction l with
    | nil => intro acc i; simp
    | cons j l ih =>
      intro acc i
      simp only [List.foldl_cons]
      rw [ih]
      by_cases hj : j ∈ acc
      · by_cases hij : i = j
        · subst hij; simp [hj]
        · simp [hj, hij]
      · simp only [if_neg hj, List.mem_append, List.mem_singleton, List.mem_cons]
        tauto
  simpa [firstOccurs] using main l [] i

theorem mem_sortAsc (l : List Nat) (i : Nat) : i ∈ sortAsc l ↔ i ∈ l :=
  (List.perm_insertionSort (· ≤ ·) l).mem_iff

theorem filterMap_eq_map_of_forall {α β : Type} (l : List α) (f : α → Option β) (g : α → β)
    (h : ∀ a ∈ l, f a = some (g a)) : l.filterMap f = l.map g := by
  induction l with
  | nil => rfl
  | cons a l ih =>
    simp only [List.filterMap_cons, h a (by simp), List.map_cons]
    rw [ih (fun a ha => h a (by simp [ha]))]

theorem indexFragments_ne_nil (frames : List Frame) (i : Nat)
    (h : i ∈ (frameDeltas frames).filterMap (fun tc => tc.index)) :
    (frameDeltas frames).filter (fun tc => tc.index == some i) ≠ [] := by
  rcases List.mem_filterMap.mp h with ⟨tc, htc, hidx⟩
  intro hnil
  have hmem : tc ∈ (frameDeltas frames).filter (fun tc => tc.index == some i) :=
    List.mem_filter.mpr ⟨htc, by simp [hidx]⟩
  rw [hnil] at hmem
  simp at hmem

/-- C4 (amended): for every sequence of upstream frames, `stream_once`
assembles tool calls per positional index — argument-text fragments for
the same index are concatenated in arrival order and never overwritten or
lost, even when fragments for different indices interleave or arrive out
of index order, and the id and name fields hold the last nonempty
fragment delivered for the index (a later nonempty name fragment
overwrites an earlier one) — and the returned tool-call list is ordered
by ascending positional index regardless of fragment arrival order. -/
theorem c4_stream_once_assembles_by_index (frames : List Frame) :
    (stream_once frames noCancel).1.toolCalls = (specIndices frames).map (specSlot frames)
    ∧ (specIndices frames).Sorted (· ≤ ·) := by
  constructor
  · have hacc : streamFrames noCancel 0 ⟨[], [], none⟩ frames = frames.foldl procFrame ⟨[], [], none⟩ :=
      streamFrames_noCancel frames 0 _
    have htable : (frames.foldl procFrame ⟨[], [], none⟩).toolCalls
        = (frameDeltas frames).foldl applyTCDelta [] := toolCalls_foldl_procFrame frames _
    have hkeys : ((frameDeltas frames).foldl applyTCDelta []).map Prod.fst
        = firstOccurs ((frameDeltas frames).filterMap (fun tc => tc.index)) := by
      simpa [firstOccurs] using map_fst_foldl_applyTCDelta (frameDeltas frames) []
    have hlook : ∀ k ∈ sortAsc (((frameDeltas frames).foldl applyTCDelta []).map Prod.fst),
        ((frameDeltas frames).foldl applyTCDelta []).lookup k = some (specSlot frames k) := by
      intro k hk
      have hk' := (mem_sortAsc _ _).mp hk
      rw [hkeys] at hk'
      have hkmem := (mem_firstOccurs _ _).mp hk'
      have hne := indexFragments_ne_nil frames k hkmem
      have hchar := lookup_foldl_applyTCDelta_none (frameDeltas frames) [] k rfl
      rw [if_neg hne] at hchar
      rw [hchar]
      congr 1
      rw [foldl_updateSlot_eq]
      rfl
    show ((sortAsc ((streamFrames noCancel 0 ⟨[], [], none⟩ frames).toolCalls.map Prod.fst)).filterMap
        (fun k => (streamFrames noCancel 0 ⟨[], [], none⟩ frames).toolCalls.lookup k)) = _
    rw [hacc, htable]
    rw [filterMap_eq_map_of_forall _ _ (specSlot frames) hlook, hkeys]
    rfl
  · exact List.sorted_insertionSort (· ≤ ·) _

/-- C4 counterexample to the claim as stated: the tool-call name is not
"set once" — when two nonempty name fragments arrive for the same index,
the later fragment overwrites the earlier one, so the assembled name is
the second ("beta"), not the first-set "alpha". -/
theorem c4_name_overwritten_counterexample :
    (stream_once
        [⟨none, some [⟨some 0, none, some ⟨some "alpha", none⟩⟩], none⟩,
         ⟨none, some [⟨some 0, none, some ⟨some "beta", none⟩⟩], none⟩]
        noCancel).1.toolCalls.map (fun tc => tc.function.name) = [some "beta"]
    ∧ (some "beta" : Option String) ≠ some "alpha" := by
  constructor
  · rfl
  · decide

theorem processToolCalls_eq (dispatch : String → String → ToolOutcome) (tcs : List ToolCall) :
    processToolCalls dispatch tcs =
      (tcs.map (toolMsgFor dispatch), (tcs.map (toolEventsFor dispatch)).flatten) := by
  induction tcs with
  | nil => rfl
  | cons tc rest ih => simp [processToolCalls, ih, toolMsgFor, toolEventsFor]

/-! ### Lemmas on session state updates -/

theorem find?_append_of_found {α : Type} (l₁ l₂ : List α) (p : α → Bool) (a : α)
    (h : l₁.find? p = some a) : (l₁ ++ l₂).find? p = some a := by
  induction l₁ with
  | nil => simp [List.find?] at h
  | cons x xs ih =>
    rw [List.cons_append]
    cases hx : p x with
    | true => rw [List.find?_cons_of_pos _ hx] at h ⊢; exact h
    | false =>
      rw [List.find?_cons_of_neg _ (by simp [hx])] at h ⊢
      exact ih h

theorem find?_map_pred_preserved {α : Type} (l : List α) (g : α → α) (p : α → Bool)
    (h : ∀ a, p (g a) = p a) : (l.map g).find? p = (l.find? p).map g := by
  induction l with
  | nil => rfl
  | cons a l ih =>
    rw [List.map_cons]
    cases hpa : p a with
    | true =>
      rw [List.find?_cons_of_pos _ (by rw [h a]; exact hpa),
          List.find?_cons_of_pos _ hpa]
      rfl
    | false =>
      rw [List.find?_cons_of_neg _ (by simp [h a, hpa]),
          List.find?_cons_of_neg _ (by simp [hpa])]
      exact ih

theorem findRun_updateRun (s : SessionState) (rid : Nat) (f : ActiveRun → ActiveRun)
    (hf : ∀ r, (f r).runId = r.runId) (rid' : Nat) :
    (s.updateRun rid f).findRun rid' =
      (s.findRun rid').map (fun r => if r.runId = rid then f r else r) := by
  unfold SessionState.updateRun SessionState.findRun
  exact find?_map_pred_preserved s.runs _ _ (fun a => by by_cases h : a.runId = rid <;> simp [h, hf])

theorem theActiveRun_updateRun (s : SessionState) (rid : Nat) (f : ActiveRun → ActiveRun)
    (hf : ∀ r, (f r).runId = r.runId) :
    (s.updateRun rid f).theActiveRun =
      s.theActiveRun.map (fun r => if r.runId = rid then f r else r) := by
  unfold SessionState.theActiveRun
  have hid : (s.updateRun rid f).activeRunId = s.activeRunId := rfl
  rw [hid]
  cases ha : s.activeRunId with
  | none => rfl
  | some aid =>
    simp only [Option.some_bind]
    exact findRun_updateRun s rid f hf aid

theorem updateRun_updateRun (s : SessionState) (rid : Nat) (f g : ActiveRun → ActiveRun)
    (hf : ∀ r, (f r).runId = r.runId) :
    (s.updateRun rid f).updateRun rid g = s.updateRun rid (fun r => g (f r)) := by
  simp only [SessionState.updateRun, List.map_map]
  have hfun : ((fun r => if r.runId = rid then g r else r) ∘ fun r => if r.runId = rid then f r else r)
      = fun r => if r.runId = rid then g (f r) else r := by
    funext x
    by_cases h : x.runId = rid
    · simp [Function.comp, h, hf]
    · simp [Function.comp, h]
  rw [hfun]

/-- `theActiveRun` as the pair of witnesses it unfolds to. -/
theorem theActiveRun_eq_some {s : SessionState} {r : ActiveRun}
    (h : s.theActiveRun = some r) :
    ∃ aid, s.activeRunId = some aid ∧ s.findRun aid = some r ∧ r.runId = aid := by
  unfold SessionState.theActiveRun at h
  cases ha : s.activeRunId with
  | none => rw [ha] at h; simp at h
  | some aid =>
    rw [ha] at h
    simp only [Option.some_bind] at h
    refine ⟨aid, rfl, h, ?_⟩
    have := List.find?_some h
    simpa using this

/-- Characterization of `_cancel_inflight_locked` on a running active
run. -/
theorem cancel_inflight_locked_running (s : SessionState) (reason : String) (r : ActiveRun)
    (hact : s.theActiveRun = some r) (hrun : r.status = RunStatus.running) :
    cancel_inflight_locked s reason =
      { s with
        runs := s.runs.map (fun x =>
          if x.runId = r.runId then { x with status := RunStatus.cancelled, cancelEvent := true }
          else x),
        msgs := (match r.openAssistant with
                 | some oa =>
                   if oa.bufferText = "" then s.msgs
                   else s.msgs.map (fun m =>
                     if m.id = oa.messageId then { m with content := some oa.bufferText } else m)
                 | none => s.msgs),
        events := s.events ++ [Event.runCancelled r.requestId reason],
        activeRunId := none } := by
  unfold cancel_inflight_locked
  rw [hact]
  simp only [hrun, if_pos rfl]
  match hoa : r.openAssistant with
  | none =>
    simp [SessionState.updateRun, SessionState.emit]
  | some oa =>
    by_cases hb : oa.bufferText = "" <;>
      simp [hb, SessionState.updateRun, SessionState.updateMessageContent, SessionState.emit]

/-- Characterization of `submit_user_message` on the cancel-then-start
path: fresh request id, nonempty content, and a different running active
run. -/
theorem submit_cancel_path (s : SessionState) (rid content : String) (model : Option String)
    (r : ActiveRun) (hact : s.theActiveRun = some r) (hrun : r.status = RunStatus.running)
    (hdiff : r.requestId ≠ rid) (hcontent : pyStrip content ≠ "")
    (hfresh : rid ∉ s.seenRequestIds) :
    submit_user_message s rid content model =
      (let s1 := cancel_inflight_locked s "new_message"
       { s1 with
         msgs := s1.msgs ++ [⟨s1.nextId, "user", some (pyStrip content), { requestId := some rid }⟩],
         runs := s1.runs ++
           [⟨s1.nextId + 1, rid, chosenModel model, RunStatus.running, false, none, []⟩],
         activeRunId := some (s1.nextId + 1),
         seenRequestIds := s1.seenRequestIds ++ [rid],
         events := s1.events ++ [Event.chatStarted rid none],
         nextId := s1.nextId + 2 }) := by
  have hb : isReplay s rid = false := by
    unfold isReplay
    simp [hfresh]
  have hc : shouldCancelInflight s rid = true := by
    unfold shouldCancelInflight
    rw [hact]
    simp [hrun, hdiff]
  unfold submit_user_message
  rw [if_neg hcontent, hb, hc]
  rw [cancel_inflight_locked_running s "new_message" r hact hrun]
  simp only [Bool.false_eq_true, if_false, if_true, SessionState.addMessage, SessionState.emit]
  rw [if_neg (show rid ∉ s.seenRequestIds from hfresh)]

/-- C3: when `submit_user_message` finds a different run currently
running (fresh request id, nonempty content), the cancellation of that
run completes synchronously inside the submission step, under the session
lock: in the post-state the old run is `cancelled` with its cancel event
set, any nonempty buffered segment is persisted onto its row, and the
only events appended are the old run's `run.cancelled` followed by the
new run's `chat.started` — so the cancellation notification and
persistence precede the new acknowledgement in the FIFO delivery order —
and the newly appended run is the active running one. -/
theorem c3_cancel_completes_before_new_start (s : SessionState) (rid content : String)
    (model : Option String) (r : ActiveRun)
    (hact : s.theActiveRun = some r) (hrun : r.status = RunStatus.running)
    (hdiff : r.requestId ≠ rid) (hcontent : pyStrip content ≠ "")
    (hfresh : rid ∉ s.seenRequestIds) :
    (submit_user_message s rid content model).events =
      s.events ++ [Event.runCancelled r.requestId "new_message", Event.chatStarted rid none]
    ∧ (∃ r', (submit_user_message s rid content model).findRun r.runId = some r'
        ∧ r'.status = RunStatus.cancelled ∧ r'.cancelEvent = true ∧ r'.requestId = r.requestId)
    ∧ (∀ oa, r.openAssistant = some oa → oa.bufferText ≠ "" →
        ∀ m ∈ s.msgs, m.id = oa.messageId →
          (⟨m.id, m.role, some oa.bufferText, m.meta⟩ : Msg) ∈
            (submit_user_message s rid content model).msgs)
    ∧ (submit_user_message s rid content model).runs.getLast? =
        some ⟨s.nextId + 1, rid, chosenModel model, RunStatus.running, false, none, []⟩
    ∧ (submit_user_message s rid content model).activeRunId = some (s.nextId + 1) := by
  rw [submit_cancel_path s rid content model r hact hrun hdiff hcontent hfresh,
      cancel_inflight_locked_running s "new_message" r hact hrun]
  refine ⟨by simp, ?_, ?_, ?_, ?_⟩
  · refine ⟨{ r with status := RunStatus.cancelled, cancelEvent := true }, ?_, rfl, rfl, rfl⟩
    obtain ⟨aid, _, hfind, hrid⟩ := theActiveRun_eq_some hact
    unfold SessionState.findRun at hfind ⊢
    subst hrid
    apply find?_append_of_found
    rw [find?_map_pred_preserved s.runs _ _
      (fun a => by by_cases h : a.runId = r.runId <;> simp [h]), hfind]
    simp
  · intro oa hoa hbuf m hm hmid
    apply List.mem_append_left
    simp only [hoa]
    rw [if_neg hbuf, ← hmid]
    have hmem := List.mem_map_of_mem
      (fun m1 : Msg => if m1.id = m.id then { m1 with content := some oa.bufferText } else m1) hm
    simpa using hmem
  · simp
  · rfl

/-- Witness for C3 at a concrete session with one running run: the
hypotheses hold and the cancel-then-start event order is observed. -/
theorem c3_cancel_completes_before_new_start_witness :
    (runTrace initState [Label.submit "r1" "hi" none]).theActiveRun =
      some ⟨1, "r1", "openai/gpt-4o-mini", RunStatus.running, false, none, []⟩
    ∧ pyStrip "next" ≠ "" ∧ "r2" ∉ (runTrace initState [Label.submit "r1" "hi" none]).seenRequestIds
    ∧ (submit_user_message (runTrace initState [Label.submit "r1" "hi" none]) "r2" "next" none).events =
        (runTrace initState [Label.submit "r1" "hi" none]).events ++
          [Event.runCancelled "r1" "new_message", Event.chatStarted "r2" none] :=
  ⟨by rfl, by decide, by decide,
   (c3_cancel_completes_before_new_start (runTrace initState [Label.submit "r1" "hi" none])
     "r2" "next" none ⟨1, "r1", "openai/gpt-4o-mini", RunStatus.running, false, none, []⟩
     (by rfl) (by rfl) (by decide) (by decide) (by decide)).1⟩

/-- C1 (code-bug evaluation): resubmitting the same request id while its
run is still running slips past both the replay guard (which requires the
active run's request id to differ) and the cancel guard (which requires
it to differ as well): the session ends up with two runs whose status is
simultaneously `running` — the first is never moved to a terminal status
before the second starts, violating the claimed invariant. -/
theorem c1_duplicate_submit_two_running :
    (runTrace initState
        [Label.submit "r" "hi" none, Label.submit "r" "hi again" none]).runs.map
      (fun r => r.status) = [RunStatus.running, RunStatus.running]
    ∧ (runTrace initState
        [Label.submit "r" "hi" none, Label.submit "r" "hi again" none]).runs.map
      (fun r => r.requestId) = ["r", "r"] := by
  constructor <;> rfl

/-- C2 (code-bug evaluation): submitting the same `request_id` twice
while the first run is still active persists the user message a second
time and creates a second run (the two `chat.started` acknowledgements do
get emitted), instead of exactly one run and no duplicate persistence. -/
theorem c2_duplicate_submit_not_idempotent :
    ((runTrace initState
        [Label.submit "r" "hi" none, Label.submit "r" "hi again" none]).msgs.countP
      (fun m => m.role == "user")) = 2
    ∧ (runTrace initState
        [Label.submit "r" "hi" none, Label.submit "r" "hi again" none]).runs.length = 2
    ∧ ((runTrace initState
        [Label.submit "r" "hi" none, Label.submit "r" "hi again" none]).events.countP
      (fun e => match e with | Event.chatStarted _ _ => true | _ => false)) = 2 := by
  refine ⟨by rfl, by rfl, by rfl⟩

/-- C6 (code-bug evaluation): the first text token of a run creates TWO
assistant-message rows and delivers TWO `chat.started` events carrying a
message id — the first of which (id 2, the stray uuid) matches no stored
row — before the token's `chat.delta` referencing the second row's id;
the claim requires exactly one row and exactly one `chat.started`. -/
theorem c6_first_token_double_insert :
    ((runTrace initState [Label.submit "r" "hi" none, Label.deltaTok "r" "Hello"]).msgs.countP
      (fun m => m.role == "assistant")) = 2
    ∧ ((runTrace initState [Label.submit "r" "hi" none, Label.deltaTok "r" "Hello"]).events.countP
      (fun e => match e with | Event.chatStarted _ (some _) => true | _ => false)) = 2
    ∧ (runTrace initState [Label.submit "r" "hi" none, Label.deltaTok "r" "Hello"]).events =
        [Event.chatStarted "r" none, Event.chatStarted "r" (some 2),
         Event.chatStarted "r" (some 4), Event.chatDelta "r" "Hello" 4]
    ∧ (runTrace initState [Label.submit "r" "hi" none, Label.deltaTok "r" "Hello"]).findMsg 2 =
        none := by
  refine ⟨by rfl, by rfl, by rfl, by rfl⟩

/-- C7 counterexample to the claim as stated: a run cancelled mid-stream
persists exactly the delivered tokens ("Hel" ++ "lo") into the recorded
assistant row and emits no `chat.done`, but the persisted row carries NO
cancelled marker — its meta is exactly the original requestId record —
so the claim's marker clause is false at this input. -/
theorem c7_no_cancelled_marker_counterexample :
    (runTrace initState
        [Label.submit "r1" "hi" none, Label.deltaTok "r1" "Hel", Label.deltaTok "r1" "lo",
         Label.submit "r2" "next" none]).findMsg 4 =
      some ⟨4, "assistant", some "Hello", { requestId := some "r1" }⟩
    ∧ ((runTrace initState
        [Label.submit "r1" "hi" none, Label.deltaTok "r1" "Hel", Label.deltaTok "r1" "lo",
         Label.submit "r2" "next" none]).msgs.countP (fun m => m.meta.cancelledMark)) = 0
    ∧ ((runTrace initState
        [Label.submit "r1" "hi" none, Label.deltaTok "r1" "Hel", Label.deltaTok "r1" "lo",
         Label.submit "r2" "next" none]).events.countP
      (fun e => match e with | Event.chatDone _ _ => true | _ => false)) = 0 := by
  refine ⟨by rfl, by rfl, by rfl⟩

/-- A token for the active run with an open segment appends to the buffer
and emits one `chat.delta` referencing the recorded message id. -/
theorem on_chat_delta_continuing (s : SessionState) (rid text : String) (r : ActiveRun)
    (oa : OpenAssistant) (hact : s.theActiveRun = some r) (hrid : r.requestId = rid)
    (hoa : r.openAssistant = some oa) :
    on_chat_delta s rid text =
      { s with
        runs := s.runs.map (fun x => if x.runId = r.runId then
          { x with openAssistant := some ⟨oa.messageId, oa.bufferText ++ text⟩ } else x),
        events := s.events ++ [Event.chatDelta rid text oa.messageId] } := by
  unfold on_chat_delta
  simp only [hact, hoa]
  rw [if_neg (fun h => h hrid)]
  simp [SessionState.updateRun, SessionState.emit]

/-- A token for a non-active request id is dropped. -/
theorem on_chat_delta_dropped (s : SessionState) (rid text : String) (r : ActiveRun)
    (hact : s.theActiveRun = some r) (hrid : r.requestId ≠ rid) :
    on_chat_delta s rid text = s := by
  unfold on_chat_delta
  simp only [hact]
  rw [if_pos hrid]

theorem runTrace_deltas_dropped (ts : List String) (s : SessionState) (rid : String)
    (r : ActiveRun) (hact : s.theActiveRun = some r) (hrid : r.requestId ≠ rid) :
    runTrace s (ts.map (Label.deltaTok rid)) = s := by
  induction ts with
  | nil => rfl
  | cons t ts ih =>
    simp only [List.map_cons, runTrace]
    rw [show step s (Label.deltaTok rid t) = on_chat_delta s rid t from rfl,
        on_chat_delta_dropped s rid t r hact hrid]
    exact ih

/-- Folding a list of tokens for the active run: the buffer accumulates
their concatenation in order and one `chat.delta` per token is emitted,
in order, all referencing the recorded message id. -/
theorem runTrace_deltas_continuing (ts : List String) :
    ∀ (s : SessionState) (rid : String) (r : ActiveRun) (oa : OpenAssistant),
      s.theActiveRun = some r → r.requestId = rid → r.openAssistant = some oa →
      (∀ x ∈ s.runs, x.runId = r.runId → x = r) →
      runTrace s (ts.map (Label.deltaTok rid)) =
        { s with
          runs := s.runs.map (fun x => if x.runId = r.runId then
            { x with openAssistant := some ⟨oa.messageId, ts.foldl (· ++ ·) oa.bufferText⟩ }
            else x),
          events := s.events ++ ts.map (fun t => Event.chatDelta rid t oa.messageId) } := by
  induction ts with
  | nil =>
    intro s rid r oa hact hrid hoa huniq
    obtain ⟨mid, buf⟩ := oa
    simp only [List.map_nil, runTrace, List.foldl_nil, List.append_nil]
    have hpt : ∀ x ∈ s.runs, (if x.runId = r.runId then
        { x with openAssistant := some ⟨mid, buf⟩ } else x) = x := by
      intro x hx
      by_cases h : x.runId = r.runId
      · rw [if_pos h, huniq x hx h, ← hoa]
      · rw [if_neg h]
    have hruns : s.runs.map (fun x => if x.runId = r.runId then
        { x with openAssistant := some ⟨mid, buf⟩ } else x) = s.runs := by
      calc s.runs.map (fun x => if x.runId = r.runId then
            { x with openAssistant := some ⟨mid, buf⟩ } else x)
          = s.runs.map id := List.map_congr_left hpt
        _ = s.runs := List.map_id s.runs
    rw [hruns]
  | cons t ts ih =>
    intro s rid r oa hact hrid hoa huniq
    obtain ⟨mid, buf⟩ := oa
    simp only [List.map_cons, runTrace]
    rw [show step s (Label.deltaTok rid t) = on_chat_delta s rid t from rfl,
        on_chat_delta_continuing s rid t r ⟨mid, buf⟩ hact hrid hoa]
    have hact1 : ({ s with
        runs := s.runs.map (fun x => if x.runId = r.runId then
          { x with openAssistant := some ⟨mid, buf ++ t⟩ } else x),
        events := s.events ++ [Event.chatDelta rid t mid] } : SessionState).theActiveRun =
        some { r with openAssistant := some ⟨mid, buf ++ t⟩ } := by
      have h0 : ({ s with
          runs := s.runs.map (fun x => if x.runId = r.runId then
            { x with openAssistant := some ⟨mid, buf ++ t⟩ } else x),
          events := s.events ++ [Event.chatDelta rid t mid] } : SessionState).theActiveRun =
          (s.updateRun r.runId
            (fun x => { x with openAssistant := some ⟨mid, buf ++ t⟩ })).theActiveRun := rfl
      have h1 := theActiveRun_updateRun s r.runId
        (fun x => { x with openAssistant := some ⟨mid, buf ++ t⟩ }) (fun x => rfl)
      rw [h0, h1, hact]
      simp
    have huniq1 : ∀ x ∈ ({ s with
        runs := s.runs.map (fun x => if x.runId = r.runId then
          { x with openAssistant := some ⟨mid, buf ++ t⟩ } else x),
        events := s.events ++ [Event.chatDelta rid t mid] } : SessionState).runs,
        x.runId = ({ r with openAssistant := some ⟨mid, buf ++ t⟩ } : ActiveRun).runId →
        x = { r with openAssistant := some ⟨mid, buf ++ t⟩ } := by
      intro x hx h
      obtain ⟨y, hy, rfl⟩ := List.mem_map.mp hx
      by_cases hyy : y.runId = r.runId
      · rw [if_pos hyy] at h ⊢
        rw [huniq y hy hyy]
      · rw [if_neg hyy] at h ⊢
        exact absurd h hyy
    have hres := ih ({ s with
        runs := s.runs.map (fun x => if x.runId = r.runId then
          { x with openAssistant := some ⟨mid, buf ++ t⟩ } else x),
        events := s.events ++ [Event.chatDelta rid t mid] } : SessionState) rid
      { r with openAssistant := some ⟨mid, buf ++ t⟩ } ⟨mid, buf ++ t⟩ hact1 hrid rfl huniq1
    rw [hres]
    simp only [List.map_map, List.foldl_cons, List.append_assoc, List.singleton_append,
      List.map_cons]
    congr 1
    apply List.map_congr_left
    intro x hx
    by_cases h : x.runId = r.runId
    · simp [Function.comp, h]
    · simp [Function.comp, h]

/-- Specialization of `cancel_inflight_locked_running` to a run with a
nonempty open segment: the buffered text is persisted onto its row. -/
theorem cancel_inflight_locked_running_buf (s : SessionState) (reason : String) (r : ActiveRun)
    (oa : OpenAssistant) (hact : s.theActiveRun = some r) (hrun : r.status = RunStatus.running)
    (hoa : r.openAssistant = some oa) (hbuf : oa.bufferText ≠ "") :
    cancel_inflight_locked s reason =
      { s with
        runs := s.runs.map (fun x =>
          if x.runId = r.runId then { x with status := RunStatus.cancelled, cancelEvent := true }
          else x),
        msgs := s.msgs.map (fun m =>
          if m.id = oa.messageId then { m with content := some oa.bufferText } else m),
        events := s.events ++ [Event.runCancelled r.requestId reason],
        activeRunId := none } := by
  rw [cancel_inflight_locked_running s reason r hact hrun]
  simp only [hoa]
  rw [if_neg hbuf]

theorem runTrace_append (l1 l2 : List Label) :
    ∀ s : SessionState, runTrace s (l1 ++ l2) = runTrace (runTrace s l1) l2 := by
  induction l1 with
  | nil => intro s; rfl
  | cons l l1 ih => intro s; simp only [List.cons_append, runTrace]; exact ih (step s l)

/-- Full-state characterization of the cancellation scenario of C7: one
run, tokens `t0 :: ts`, a superseding submission, then stale tokens
`ts2`. -/
theorem c7_trace_characterization (t0 c2 : String) (ts ts2 : List String)
    (hc2 : pyStrip c2 ≠ "") (hbuf : concatList (t0 :: ts) ≠ "") :
    runTrace initState
        ([Label.submit "r1" "hi" none] ++ (t0 :: ts).map (Label.deltaTok "r1")
          ++ [Label.submit "r2" c2 none] ++ ts2.map (Label.deltaTok "r1")) = (⟨some 6,
        [⟨1, "r1", "openai/gpt-4o-mini", RunStatus.cancelled, true,
          some ⟨4, List.foldl (· ++ ·) t0 ts⟩, []⟩,
         ⟨6, "r2", "openai/gpt-4o-mini", RunStatus.running, false, none, []⟩],
        ["r1", "r2"],
        [⟨0, "user", some "hi", { requestId := some "r1" }⟩,
         ⟨3, "assistant", some "", { requestId := some "r1" }⟩,
         ⟨4, "assistant", some (List.foldl (· ++ ·) t0 ts), { requestId := some "r1" }⟩,
         ⟨5, "user", some (pyStrip c2), { requestId := some "r2" }⟩],
        [Event.chatStarted "r1" none, Event.chatStarted "r1" (some 2),
         Event.chatStarted "r1" (some 4), Event.chatDelta "r1" t0 4]
          ++ ts.map (fun t => Event.chatDelta "r1" t 4)
          ++ [Event.runCancelled "r1" "new_message"] ++ [Event.chatStarted "r2" none],
        7⟩ : SessionState) := by
  have hregroup : ([Label.submit "r1" "hi" none] ++ (t0 :: ts).map (Label.deltaTok "r1")
      ++ [Label.submit "r2" c2 none] ++ ts2.map (Label.deltaTok "r1"))
      = ([Label.submit "r1" "hi" none, Label.deltaTok "r1" t0]
          ++ (ts.map (Label.deltaTok "r1")
          ++ ([Label.submit "r2" c2 none] ++ ts2.map (Label.deltaTok "r1")))) := by
    simp
  rw [hregroup, runTrace_append, runTrace_append, runTrace_append]
  have h3 := runTrace_deltas_continuing ts
      (⟨some 1, [⟨1, "r1", "openai/gpt-4o-mini", RunStatus.running, false, some ⟨4, t0⟩, []⟩], ["r1"],
       [⟨0, "user", some "hi", { requestId := some "r1" }⟩,
        ⟨3, "assistant", some "", { requestId := some "r1" }⟩,
        ⟨4, "assistant", some "", { requestId := some "r1" }⟩],
       [Event.chatStarted "r1" none, Event.chatStarted "r1" (some 2),
        Event.chatStarted "r1" (some 4), Event.chatDelta "r1" t0 4], 5⟩ : SessionState)
      "r1" ⟨1, "r1", "openai/gpt-4o-mini", RunStatus.running, false, some ⟨4, t0⟩, []⟩ ⟨4, t0⟩
      rfl rfl rfl (by intro x hx h; simpa using hx)
  rw [show runTrace initState [Label.submit "r1" "hi" none, Label.deltaTok "r1" t0] =
      (⟨some 1, [⟨1, "r1", "openai/gpt-4o-mini", RunStatus.running, false, some ⟨4, t0⟩, []⟩], ["r1"],
       [⟨0, "user", some "hi", { requestId := some "r1" }⟩,
        ⟨3, "assistant", some "", { requestId := some "r1" }⟩,
        ⟨4, "assistant", some "", { requestId := some "r1" }⟩],
       [Event.chatStarted "r1" none, Event.chatStarted "r1" (some 2),
        Event.chatStarted "r1" (some 4), Event.chatDelta "r1" t0 4], 5⟩ : SessionState) from rfl,
     h3]
  show runTrace (runTrace (⟨some 1,
        [⟨1, "r1", "openai/gpt-4o-mini", RunStatus.running, false,
          some ⟨4, List.foldl (· ++ ·) t0 ts⟩, []⟩], ["r1"],
        [⟨0, "user", some "hi", { requestId := some "r1" }⟩,
         ⟨3, "assistant", some "", { requestId := some "r1" }⟩,
         ⟨4, "assistant", some "", { requestId := some "r1" }⟩],
        [Event.chatStarted "r1" none, Event.chatStarted "r1" (some 2),
         Event.chatStarted "r1" (some 4), Event.chatDelta "r1" t0 4]
          ++ ts.map (fun t => Event.chatDelta "r1" t 4), 5⟩ : SessionState)
      [Label.submit "r2" c2 none]) (ts2.map (Label.deltaTok "r1")) = _
  rw [show runTrace (⟨some 1,
        [⟨1, "r1", "openai/gpt-4o-mini", RunStatus.running, false,
          some ⟨4, List.foldl (· ++ ·) t0 ts⟩, []⟩], ["r1"],
        [⟨0, "user", some "hi", { requestId := some "r1" }⟩,
         ⟨3, "assistant", some "", { requestId := some "r1" }⟩,
         ⟨4, "assistant", some "", { requestId := some "r1" }⟩],
        [Event.chatStarted "r1" none, Event.chatStarted "r1" (some 2),
         Event.chatStarted "r1" (some 4), Event.chatDelta "r1" t0 4]
          ++ ts.map (fun t => Event.chatDelta "r1" t 4), 5⟩ : SessionState)
      [Label.submit "r2" c2 none] =
    submit_user_message (⟨some 1,
        [⟨1, "r1", "openai/gpt-4o-mini", RunStatus.running, false,
          some ⟨4, List.foldl (· ++ ·) t0 ts⟩, []⟩], ["r1"],
        [⟨0, "user", some "hi", { requestId := some "r1" }⟩,
         ⟨3, "assistant", some "", { requestId := some "r1" }⟩,
         ⟨4, "assistant", some "", { requestId := some "r1" }⟩],
        [Event.chatStarted "r1" none, Event.chatStarted "r1" (some 2),
         Event.chatStarted "r1" (some 4), Event.chatDelta "r1" t0 4]
          ++ ts.map (fun t => Event.chatDelta "r1" t 4), 5⟩ : SessionState)
      "r2" c2 none from rfl]
  rw [submit_cancel_path (⟨some 1,
        [⟨1, "r1", "openai/gpt-4o-mini", RunStatus.running, false,
          some ⟨4, List.foldl (· ++ ·) t0 ts⟩, []⟩], ["r1"],
        [⟨0, "user", some "hi", { requestId := some "r1" }⟩,
         ⟨3, "assistant", some "", { requestId := some "r1" }⟩,
         ⟨4, "assistant", some "", { requestId := some "r1" }⟩],
        [Event.chatStarted "r1" none, Event.chatStarted "r1" (some 2),
         Event.chatStarted "r1" (some 4), Event.chatDelta "r1" t0 4]
          ++ ts.map (fun t => Event.chatDelta "r1" t 4), 5⟩ : SessionState) "r2" c2 none
      ⟨1, "r1", "openai/gpt-4o-mini", RunStatus.running, false,
        some ⟨4, List.foldl (· ++ ·) t0 ts⟩, []⟩ rfl rfl (by simp) hc2 (by simp)]
  rw [cancel_inflight_locked_running_buf (⟨some 1,
        [⟨1, "r1", "openai/gpt-4o-mini", RunStatus.running, false,
          some ⟨4, List.foldl (· ++ ·) t0 ts⟩, []⟩], ["r1"],
        [⟨0, "user", some "hi", { requestId := some "r1" }⟩,
         ⟨3, "assistant", some "", { requestId := some "r1" }⟩,
         ⟨4, "assistant", some "", { requestId := some "r1" }⟩],
        [Event.chatStarted "r1" none, Event.chatStarted "r1" (some 2),
         Event.chatStarted "r1" (some 4), Event.chatDelta "r1" t0 4]
          ++ ts.map (fun t => Event.chatDelta "r1" t 4), 5⟩ : SessionState) "new_message"
      ⟨1, "r1", "openai/gpt-4o-mini", RunStatus.running, false,
        some ⟨4, List.foldl (· ++ ·) t0 ts⟩, []⟩
      ⟨4, List.foldl (· ++ ·) t0 ts⟩ rfl rfl rfl hbuf]
  show runTrace (⟨some 6,
        [⟨1, "r1", "openai/gpt-4o-mini", RunStatus.cancelled, true,
          some ⟨4, List.foldl (· ++ ·) t0 ts⟩, []⟩,
         ⟨6, "r2", "openai/gpt-4o-mini", RunStatus.running, false, none, []⟩],
        ["r1", "r2"],
        [⟨0, "user", some "hi", { requestId := some "r1" }⟩,
         ⟨3, "assistant", some "", { requestId := some "r1" }⟩,
         ⟨4, "assistant", some (List.foldl (· ++ ·) t0 ts), { requestId := some "r1" }⟩,
         ⟨5, "user", some (pyStrip c2), { requestId := some "r2" }⟩],
        [Event.chatStarted "r1" none, Event.chatStarted "r1" (some 2),
         Event.chatStarted "r1" (some 4), Event.chatDelta "r1" t0 4]
          ++ ts.map (fun t => Event.chatDelta "r1" t 4)
          ++ [Event.runCancelled "r1" "new_message"] ++ [Event.chatStarted "r2" none],
        7⟩ : SessionState) (ts2.map (Label.deltaTok "r1")) = _
  rw [runTrace_deltas_dropped ts2 (⟨some 6,
        [⟨1, "r1", "openai/gpt-4o-mini", RunStatus.cancelled, true,
          some ⟨4, List.foldl (· ++ ·) t0 ts⟩, []⟩,
         ⟨6, "r2", "openai/gpt-4o-mini", RunStatus.running, false, none, []⟩],
        ["r1", "r2"],
        [⟨0, "user", some "hi", { requestId := some "r1" }⟩,
         ⟨3, "assistant", some "", { requestId := some "r1" }⟩,
         ⟨4, "assistant", some (List.foldl (· ++ ·) t0 ts), { requestId := some "r1" }⟩,
         ⟨5, "user", some (pyStrip c2), { requestId := some "r2" }⟩],
        [Event.chatStarted "r1" none, Event.chatStarted "r1" (some 2),
         Event.chatStarted "r1" (some 4), Event.chatDelta "r1" t0 4]
          ++ ts.map (fun t => Event.chatDelta "r1" t 4)
          ++ [Event.runCancelled "r1" "new_message"] ++ [Event.chatStarted "r2" none],
        7⟩ : SessionState) "r1"
      ⟨6, "r2", "openai/gpt-4o-mini", RunStatus.running, false, none, []⟩ rfl (by simp)]

/-- C7 (amended): a run cancelled mid-token-stream persists exactly the
concatenation of the tokens delivered before cancellation into the
recorded assistant row (tokens arriving after cancellation are dropped
and change nothing), and no `chat.done` event is ever emitted for that
run; the delivered events are exactly the run's starts and deltas
followed by `run.cancelled` and the new run's `chat.started`. No
"cancelled" marker is persisted (see the counterexample). -/
theorem c7_cancel_persists_exact_tokens (t0 c2 : String) (ts ts2 : List String)
    (hc2 : pyStrip c2 ≠ "") (hbuf : concatList (t0 :: ts) ≠ "") :
    (runTrace initState
        ([Label.submit "r1" "hi" none] ++ (t0 :: ts).map (Label.deltaTok "r1")
          ++ [Label.submit "r2" c2 none] ++ ts2.map (Label.deltaTok "r1"))).findMsg 4 =
      some ⟨4, "assistant", some (concatList (t0 :: ts)), { requestId := some "r1" }⟩
    ∧ (runTrace initState
        ([Label.submit "r1" "hi" none] ++ (t0 :: ts).map (Label.deltaTok "r1")
          ++ [Label.submit "r2" c2 none] ++ ts2.map (Label.deltaTok "r1"))).events =
      [Event.chatStarted "r1" none, Event.chatStarted "r1" (some 2),
       Event.chatStarted "r1" (some 4), Event.chatDelta "r1" t0 4]
        ++ ts.map (fun t => Event.chatDelta "r1" t 4)
        ++ [Event.runCancelled "r1" "new_message"] ++ [Event.chatStarted "r2" none]
    ∧ ((runTrace initState
        ([Label.submit "r1" "hi" none] ++ (t0 :: ts).map (Label.deltaTok "r1")
          ++ [Label.submit "r2" c2 none] ++ ts2.map (Label.deltaTok "r1"))).events.countP
      (fun e => match e with | Event.chatDone _ _ => true | _ => false)) = 0 := by
  rw [c7_trace_characterization t0 c2 ts ts2 hc2 hbuf]
  refine ⟨rfl, rfl, ?_⟩
  show (([Event.chatStarted "r1" none, Event.chatStarted "r1" (some 2),
         Event.chatStarted "r1" (some 4), Event.chatDelta "r1" t0 4]
          ++ ts.map (fun t => Event.chatDelta "r1" t 4)
          ++ [Event.runCancelled "r1" "new_message"] ++ [Event.chatStarted "r2" none]).countP
      (fun e => match e with | Event.chatDone _ _ => true | _ => false)) = 0
  simp only [List.countP_append]
  have hm : (ts.map (fun t => Event.chatDelta "r1" t 4)).countP
      (fun e => match e with | Event.chatDone _ _ => true | _ => false) = 0 := by
    rw [List.countP_eq_zero]
    intro e he
    obtain ⟨t, _, rfl⟩ := List.mem_map.mp he
    simp
  rw [hm]
  rfl

/-- Witness for C7 at concrete tokens: "Hel" and "lo" delivered, then a
new submission cancels, then a stale token "XX" arrives: the persisted
content is exactly "Hello" and no chat.done is delivered. -/
theorem c7_cancel_persists_exact_tokens_witness :
    pyStrip "next" ≠ "" ∧ concatList ["Hel", "lo"] ≠ ""
    ∧ (runTrace initState
        ([Label.submit "r1" "hi" none] ++ (["Hel", "lo"]).map (Label.deltaTok "r1")
          ++ [Label.submit "r2" "next" none] ++ (["XX"]).map (Label.deltaTok "r1"))).findMsg 4 =
      some ⟨4, "assistant", some "Hello", { requestId := some "r1" }⟩ := by
  refine ⟨by decide, by decide, ?_⟩
  exact (c7_cancel_persists_exact_tokens "Hel" "next" ["lo"] ["XX"]
    (by decide) (by decide)).1

/-- Full-state characterization of a run delivering tokens `t0 :: ts` and
then completing naturally. -/
theorem c9_trace_characterization (t0 : String) (ts : List String) :
    runTrace initState
        ([Label.submit "r" "hi" none] ++ (t0 :: ts).map (Label.deltaTok "r")
          ++ [Label.taskFinished "r" TaskOutcome.completed]) =
      ⟨none,
       [⟨1, "r", "openai/gpt-4o-mini", RunStatus.done, false,
         some ⟨4, List.foldl (· ++ ·) t0 ts⟩, []⟩],
       ["r"],
       [⟨0, "user", some "hi", { requestId := some "r" }⟩,
        ⟨3, "assistant", some "", { requestId := some "r" }⟩,
        ⟨4, "assistant", some (List.foldl (· ++ ·) t0 ts), { requestId := some "r" }⟩],
       [Event.chatStarted "r" none, Event.chatStarted "r" (some 2),
        Event.chatStarted "r" (some 4), Event.chatDelta "r" t0 4]
         ++ ts.map (fun t => Event.chatDelta "r" t 4)
         ++ [Event.chatDone "r" (some 4)],
       5⟩ := by
  have hregroup : ([Label.submit "r" "hi" none] ++ (t0 :: ts).map (Label.deltaTok "r")
      ++ [Label.taskFinished "r" TaskOutcome.completed])
      = ([Label.submit "r" "hi" none, Label.deltaTok "r" t0]
          ++ (ts.map (Label.deltaTok "r") ++ [Label.taskFinished "r" TaskOutcome.completed])) := by
    simp
  rw [hregroup, runTrace_append, runTrace_append]
  have h3 := runTrace_deltas_continuing ts
      (⟨some 1, [⟨1, "r", "openai/gpt-4o-mini", RunStatus.running, false, some ⟨4, t0⟩, []⟩], ["r"],
       [⟨0, "user", some "hi", { requestId := some "r" }⟩,
        ⟨3, "assistant", some "", { requestId := some "r" }⟩,
        ⟨4, "assistant", some "", { requestId := some "r" }⟩],
       [Event.chatStarted "r" none, Event.chatStarted "r" (some 2),
        Event.chatStarted "r" (some 4), Event.chatDelta "r" t0 4], 5⟩ : SessionState)
      "r" ⟨1, "r", "openai/gpt-4o-mini", RunStatus.running, false, some ⟨4, t0⟩, []⟩ ⟨4, t0⟩
      rfl rfl rfl (by intro x hx h; simpa using hx)
  rw [show runTrace initState [Label.submit "r" "hi" none, Label.deltaTok "r" t0] =
      (⟨some 1, [⟨1, "r", "openai/gpt-4o-mini", RunStatus.running, false, some ⟨4, t0⟩, []⟩], ["r"],
       [⟨0, "user", some "hi", { requestId := some "r" }⟩,
        ⟨3, "assistant", some "", { requestId := some "r" }⟩,
        ⟨4, "assistant", some "", { requestId := some "r" }⟩],
       [Event.chatStarted "r" none, Event.chatStarted "r" (some 2),
        Event.chatStarted "r" (some 4), Event.chatDelta "r" t0 4], 5⟩ : SessionState) from rfl,
     h3]
  rfl

/-- C9: for a run that completes naturally with no tool calls, the
`chat.delta` events delivered to the client are exactly the tokens the
stream driver surfaced, in production order, all referencing the recorded
message id; their concatenation equals the driver's accumulated assistant
text, which is the content of the finalized persisted assistant message. -/
theorem c9_deltas_in_order_and_concat (frames : List Frame)
    (hnotool : (stream_once frames noCancel).1.toolCalls = [])
    (hts : (stream_once frames noCancel).2 ≠ []) :
    ((runTrace initState
        ([Label.submit "r" "hi" none]
          ++ ((stream_once frames noCancel).2).map (Label.deltaTok "r")
          ++ [Label.taskFinished "r" TaskOutcome.completed])).events.filterMap
      (fun e => match e with | Event.chatDelta _ t mid => some (t, mid) | _ => none)) =
      ((stream_once frames noCancel).2).map (fun t => (t, 4))
    ∧ (runTrace initState
        ([Label.submit "r" "hi" none]
          ++ ((stream_once frames noCancel).2).map (Label.deltaTok "r")
          ++ [Label.taskFinished "r" TaskOutcome.completed])).findMsg 4 =
      some ⟨4, "assistant", some (concatList ((stream_once frames noCancel).2)),
        { requestId := some "r" }⟩
    ∧ (stream_once frames noCancel).1.assistantText =
        concatList ((stream_once frames noCancel).2) := by
  obtain ⟨t0, ts', hcons⟩ : ∃ t0 ts', (stream_once frames noCancel).2 = t0 :: ts' := by
    match h : (stream_once frames noCancel).2 with
    | [] => exact absurd h hts
    | a :: b => exact ⟨a, b, rfl⟩
  rw [hcons, c9_trace_characterization t0 ts']
  have hmapdelta : ∀ l : List String, (l.map (fun t => Event.chatDelta "r" t 4)).filterMap
      (fun e => match e with | Event.chatDelta _ t mid => some (t, mid) | _ => none) =
      l.map (fun t => (t, 4)) := by
    intro l
    induction l with
    | nil => rfl
    | cons a l ih =>
      simp only [List.map_cons, List.filterMap_cons]
      rw [ih]
  refine ⟨?_, rfl, ?_⟩
  · rw [List.filterMap_append, List.filterMap_append, hmapdelta]
    show ([(t0, 4)] ++ ts'.map (fun t => (t, 4))) ++ ([] : List (String × Nat)) = _
    simp
  · rw [← hcons]
    rfl

/-- Witness for C9: two content frames produce tokens "Hel", "lo"; the
run persists "Hello" and the deltas arrive in production order. -/
theorem c9_deltas_in_order_and_concat_witness :
    (stream_once [(⟨some "Hel", none, none⟩ : Frame), ⟨some "lo", none, none⟩]
        noCancel).1.toolCalls = []
    ∧ (stream_once [(⟨some "Hel", none, none⟩ : Frame), ⟨some "lo", none, none⟩]
        noCancel).2 ≠ []
    ∧ (runTrace initState
        ([Label.submit "r" "hi" none]
          ++ ((stream_once [(⟨some "Hel", none, none⟩ : Frame), ⟨some "lo", none, none⟩]
              noCancel).2).map (Label.deltaTok "r")
          ++ [Label.taskFinished "r" TaskOutcome.completed])).findMsg 4 =
      some ⟨4, "assistant",
        some (concatList ((stream_once [(⟨some "Hel", none, none⟩ : Frame),
          ⟨some "lo", none, none⟩] noCancel).2)), { requestId := some "r" }⟩ := by
  refine ⟨by rfl, by decide, ?_⟩
  exact (c9_deltas_in_order_and_concat
    [(⟨some "Hel", none, none⟩ : Frame), ⟨some "lo", none, none⟩] (by rfl) (by decide)).2.1

/-- C8: the streaming tool loop processes every tool call of a step into
exactly one tool-result message (keyed by the call id) and one
tool.start/tool.end event pair, in call order, never aborting the
iteration; in particular when the tool handler raises an arbitrary
exception the appended message carries the failure content for that call
id and the tool.end event has `ok = false`, while every other call of the
step is still processed. -/
theorem c8_tool_failure_contained (dispatch : String → String → ToolOutcome)
    (tcs : List ToolCall) (tc : ToolCall) (m : String)
    (hmem : tc ∈ tcs)
    (hexn : dispatch (tc.function.name.getD "") (rawArgsOf tc) = ToolOutcome.exn m) :
    (processToolCalls dispatch tcs).1 = tcs.map (toolMsgFor dispatch)
    ∧ (processToolCalls dispatch tcs).2 = (tcs.map (toolEventsFor dispatch)).flatten
    ∧ toolMsgFor dispatch tc =
        LoopMsg.toolResult tc.id (tc.function.name.getD "") (ToolContent.errorMessage m)
    ∧ toolEventsFor dispatch tc =
        [LoopEvent.toolStart (tc.function.name.getD "") (pyTake (rawArgsOf tc) 200),
         LoopEvent.toolEnd (tc.function.name.getD "") false 0]
    ∧ LoopMsg.toolResult tc.id (tc.function.name.getD "") (ToolContent.errorMessage m)
        ∈ (processToolCalls dispatch tcs).1 := by
  have heq := processToolCalls_eq dispatch tcs
  have h3 : toolMsgFor dispatch tc =
      LoopMsg.toolResult tc.id (tc.function.name.getD "") (ToolContent.errorMessage m) := by
    simp [toolMsgFor, hexn, toolResultContent]
  have h4 : toolEventsFor dispatch tc =
      [LoopEvent.toolStart (tc.function.name.getD "") (pyTake (rawArgsOf tc) 200),
       LoopEvent.toolEnd (tc.function.name.getD "") false 0] := by
    simp [toolEventsFor, hexn, toolResultContent]
  refine ⟨by rw [heq], by rw [heq], h3, h4, ?_⟩
  rw [heq]
  exact h3 ▸ List.mem_map_of_mem (toolMsgFor dispatch) hmem

/-- Witness for C8: a single-call step whose handler raises becomes one
failure-content tool-result message and a `tool.end` with `ok = false`. -/
theorem c8_tool_failure_contained_witness :
    ((⟨some "call1", "function", ⟨some "fs_list", "bad"⟩⟩ : ToolCall)
        ∈ [(⟨some "call1", "function", ⟨some "fs_list", "bad"⟩⟩ : ToolCall)])
    ∧ (processToolCalls (fun _ _ => ToolOutcome.exn "boom")
        [⟨some "call1", "function", ⟨some "fs_list", "bad"⟩⟩]).1 =
      [LoopMsg.toolResult (some "call1") "fs_list" (ToolContent.errorMessage "boom")]
    ∧ LoopEvent.toolEnd "fs_list" false 0
        ∈ (processToolCalls (fun _ _ => ToolOutcome.exn "boom")
            [⟨some "call1", "function", ⟨some "fs_list", "bad"⟩⟩]).2 := by
  have h := c8_tool_failure_contained (fun _ _ => ToolOutcome.exn "boom")
    [⟨some "call1", "function", ⟨some "fs_list", "bad"⟩⟩]
    ⟨some "call1", "function", ⟨some "fs_list", "bad"⟩⟩ "boom" (by decide) (by rfl)
  obtain ⟨h1, h2, h3, h4, _⟩ := h
  refine ⟨by decide, ?_, ?_⟩
  · rw [h1, List.map_cons, List.map_nil, h3]
    rfl
  · rw [h2]
    simp [h4]

theorem mem_collect_inner (tcs : List ToolCall) :
    ∀ (acc : List String) (cid : String),
      cid ∈ tcs.foldl (fun acc tc =>
        match tc.id with
        | some c => if c = "" then acc else if c ∈ acc then acc else acc ++ [c]
        | none => acc) acc →
      cid ∈ acc ∨ (∃ tc ∈ tcs, tc.id = some cid ∧ cid ≠ "") := by
  induction tcs with
  | nil => intro acc cid h; exact Or.inl h
  | cons tc tcs ih =>
    intro acc cid h
    simp only [List.foldl_cons] at h
    rcases ih _ cid h with hacc | ⟨tc', htc', hid⟩
    · match htcid : tc.id with
      | none =>
        simp only [htcid] at hacc
        exact Or.inl hacc
      | some c =>
        simp only [htcid] at hacc
        by_cases hc : c = ""
        · rw [if_pos hc] at hacc
          exact Or.inl hacc
        · rw [if_neg hc] at hacc
          by_cases hmem : c ∈ acc
          · rw [if_pos hmem] at hacc
            exact Or.inl hacc
          · rw [if_neg hmem] at hacc
            rcases List.mem_append.mp hacc with h1 | h2
            · exact Or.inl h1
            · have : cid = c := List.mem_singleton.mp h2
              subst this
              exact Or.inr ⟨tc, List.mem_cons_self _ _, htcid, hc⟩
    · exact Or.inr ⟨tc', List.mem_cons_of_mem _ htc', hid⟩

theorem mem_collectValidCallIds (msgs : List Msg) (cid : String)
    (h : cid ∈ collectValidCallIds msgs) :
    ∃ a ∈ msgs, a.role = "assistant" ∧ ∃ tcs, a.meta.toolCalls = some tcs ∧
      ∃ tc ∈ tcs, tc.id = some cid := by
  have main : ∀ (ms : List Msg) (acc : List String),
      cid ∈ ms.foldl (fun acc m =>
        if m.role = "assistant" then
          match m.meta.toolCalls with
          | some tcs =>
            tcs.foldl (fun acc tc =>
              match tc.id with
              | some c => if c = "" then acc else if c ∈ acc then acc else acc ++ [c]
              | none => acc) acc
          | none => acc
        else acc) acc →
      cid ∈ acc ∨ ∃ a ∈ ms, a.role = "assistant" ∧ ∃ tcs, a.meta.toolCalls = some tcs ∧
        ∃ tc ∈ tcs, tc.id = some cid := by
    intro ms
    induction ms with
    | nil => intro acc h; exact Or.inl h
    | cons m ms ih =>
      intro acc h
      simp only [List.foldl_cons] at h
      rcases ih _ h with hacc | ⟨a, ha, has⟩
      · by_cases hrole : m.role = "assistant"
        · rw [if_pos hrole] at hacc
          match htc : m.meta.toolCalls with
          | none =>
            simp only [htc] at hacc
            exact Or.inl hacc
          | some tcs =>
            simp only [htc] at hacc
            rcases mem_collect_inner tcs acc cid hacc with h1 | ⟨tc, htcmem, hid, _⟩
            · exact Or.inl h1
            · exact Or.inr ⟨m, List.mem_cons_self _ _, hrole, tcs, htc, tc, htcmem, hid⟩
        · rw [if_neg hrole] at hacc
          exact Or.inl hacc
      · exact Or.inr ⟨a, List.mem_cons_of_mem _ ha, has⟩
  rcases main msgs [] h with habs | hgoal
  · simp at habs
  · exact hgoal

/-- C10 (amended): every tool-role message included in the list
`messages_for_llm` builds has a `tool_call_id` matching the id of some
tool call recorded on an assistant message somewhere in the stored
transcript (the code checks the whole history, not only assistant
messages earlier in the list); tool messages with no such matching id are
silently excluded from the model input, while the stored rows themselves
are untouched. -/
theorem c10_tool_messages_linked (msgs : List Msg) :
    ∀ m ∈ messages_for_llm msgs, m.role = "tool" →
      ∃ cid, m.toolCallId = some cid ∧ cid ≠ "" ∧ cid ∈ collectValidCallIds msgs ∧
        ∃ a ∈ msgs, a.role = "assistant" ∧ ∃ tcs, a.meta.toolCalls = some tcs ∧
          ∃ tc ∈ tcs, tc.id = some cid := by
  intro m hm hrole
  obtain ⟨m0, hm0, hf⟩ := List.mem_filterMap.mp hm
  by_cases hr0 : m0.role = "tool"
  · rw [if_pos hr0] at hf
    match htcid : m0.meta.toolCallId with
    | none =>
      simp only [htcid] at hf
      exact absurd hf (by simp)
    | some t =>
      simp only [htcid] at hf
      by_cases hcond : t ≠ "" ∧ t ∈ collectValidCallIds msgs
      · rw [if_pos hcond] at hf
        have hmm : m = toLlm m0 := (Option.some_inj.mp hf).symm
        refine ⟨t, ?_, hcond.1, hcond.2, mem_collectValidCallIds msgs t hcond.2⟩
        rw [hmm]
        exact htcid
      · rw [if_neg hcond] at hf
        exact absurd hf (by simp)
  · rw [if_neg hr0] at hf
    have hmm : m = toLlm m0 := (Option.some_inj.mp hf).symm
    rw [hmm] at hrole
    exact absurd hrole hr0

/-- C10 counterexample to the claim as stated: a stored transcript whose
tool row precedes the assistant row that records its call id. The tool
message is included in the built list (first position, before any
assistant entry), so its matching assistant message is NOT earlier in the
list, falsifying the claimed ordering at this input. -/
theorem c10_earlier_assistant_counterexample :
    ((messages_for_llm
        [⟨0, "tool", some "out", { requestId := some "x", toolCallId := some "a", name := some "t" }⟩,
         ⟨1, "assistant", some "",
           { toolCalls := some [⟨some "a", "function", ⟨some "t", ""⟩⟩] }⟩]).map
      (fun m => m.role)) = ["tool", "assistant"]
    ∧ earlierAssistantMatch (messages_for_llm
        [⟨0, "tool", some "out", { requestId := some "x", toolCallId := some "a", name := some "t" }⟩,
         ⟨1, "assistant", some "",
           { toolCalls := some [⟨some "a", "function", ⟨some "t", ""⟩⟩] }⟩]) = false := by
  refine ⟨by decide, by decide⟩

/-- Witness for C10 at a well-ordered transcript: the included tool entry
is linked to a recorded assistant tool call. -/
theorem c10_tool_messages_linked_witness :
    (⟨"tool", some "out", some "t", some "a", none⟩ : LlmMsg) ∈ messages_for_llm
        [⟨0, "assistant", some "",
           { toolCalls := some [⟨some "a", "function", ⟨some "t", ""⟩⟩] }⟩,
         ⟨1, "tool", some "out", { requestId := some "x", toolCallId := some "a", name := some "t" }⟩]
    ∧ (⟨"tool", some "out", some "t", some "a", none⟩ : LlmMsg).role = "tool"
    ∧ ∃ cid, (⟨"tool", some "out", some "t", some "a", none⟩ : LlmMsg).toolCallId = some cid
        ∧ cid ≠ ""
        ∧ cid ∈ collectValidCallIds
            [⟨0, "assistant", some "",
               { toolCalls := some [⟨some "a", "function", ⟨some "t", ""⟩⟩] }⟩,
             ⟨1, "tool", some "out", { requestId := some "x", toolCallId := some "a", name := some "t" }⟩]
        ∧ ∃ a ∈ [(⟨0, "assistant", some "",
               { toolCalls := some [⟨some "a", "function", ⟨some "t", ""⟩⟩] }⟩ : Msg),
             ⟨1, "tool", some "out", { requestId := some "x", toolCallId := some "a", name := some "t" }⟩],
            a.role = "assistant" ∧ ∃ tcs, a.meta.toolCalls = some tcs ∧
              ∃ tc ∈ tcs, tc.id = some cid := by
  refine ⟨by decide, rfl, ?_⟩
  exact c10_tool_messages_linked
    [⟨0, "assistant", some "", { toolCalls := some [⟨some "a", "function", ⟨some "t", ""⟩⟩] }⟩,
     ⟨1, "tool", some "out", { requestId := some "x", toolCallId := some "a", name := some "t" }⟩]
    ⟨"tool", some "out", some "t", some "a", none⟩ (by decide) rfl

/-! ### The terminal-event invariant (C5) -/

theorem countTerminal_append_nonterminal (evs : List Event) (e : Event) (rid : String)
    (h : isTerminalFor rid e = false) :
    countTerminal (evs ++ [e]) rid = countTerminal evs rid := by
  unfold countTerminal
  rw [List.countP_append]
  simp [List.countP_cons, h]

theorem countTerminal_append_terminal (evs : List Event) (e : Event) (rid : String)
    (h : isTerminalFor rid e = true) :
    countTerminal (evs ++ [e]) rid = countTerminal evs rid + 1 := by
  unfold countTerminal
  rw [List.countP_append]
  simp [List.countP_cons, h]

theorem find?_runId_unique (l : List ActiveRun) (i : Nat) (r : ActiveRun)
    (hnd : (l.map (fun r => r.runId)).Nodup)
    (hf : l.find? (fun x => x.runId == i) = some r) :
    ∀ x ∈ l, x.runId = i → x = r := by
  induction l with
  | nil => intro x hx; simp at hx
  | cons a l ih =>
    intro x hx hxi
    rw [List.map_cons, List.nodup_cons] at hnd
    cases hpa : (a.runId == i) with
    | true =>
      simp only [List.find?_cons, hpa] at hf
      have hra : r = a := (Option.some_inj.mp hf).symm
      subst hra
      rcases List.mem_cons.mp hx with rfl | hxl
      · rfl
      · exfalso
        have hai : r.runId = i := by simpa using hpa
        exact hnd.1 (by rw [hai, ← hxi]; exact List.mem_map_of_mem _ hxl)
    | false =>
      simp only [List.find?_cons, hpa] at hf
      rcases List.mem_cons.mp hx with rfl | hxl
      · exfalso
        have : x.runId ≠ i := by simpa using hpa
        exact this hxi
      · exact ih hnd.2 hf x hxl hxi

theorem inv_initState : Inv initState := by
  refine ⟨?_, ?_, ?_, ?_, ?_, ?_⟩ <;> simp [initState, SessionState.theActiveRun, countTerminal,
    hasTerminalRun, Inv]

/-- Invariant transfer to a state with the same runs and active-run
reference, a larger seen-set and id supply, and the same terminal-event
counts. -/
theorem inv_transfer (s s' : SessionState)
    (hruns : s'.runs = s.runs)
    (hact : s'.activeRunId = s.activeRunId)
    (hseen : ∀ x ∈ s.seenRequestIds, x ∈ s'.seenRequestIds)
    (hnext : s.nextId ≤ s'.nextId)
    (hevents : ∀ rid, countTerminal s'.events rid = countTerminal s.events rid)
    (h : Inv s) : Inv s' := by
  obtain ⟨h1, h2, h3, h4, h5, h6⟩ := h
  have hactive : s'.theActiveRun = s.theActiveRun := by
    unfold SessionState.theActiveRun SessionState.findRun
    rw [hruns, hact]
  have hterm : ∀ rid, hasTerminalRun s' rid = hasTerminalRun s rid := by
    intro rid
    unfold hasTerminalRun
    rw [hruns]
  refine ⟨?_, ?_, ?_, ?_, ?_, ?_⟩
  · intro r hr
    exact h1 r (hactive ▸ hr)
  · intro r hr x hx hxr
    exact h2 r (hactive ▸ hr) x (hruns ▸ hx) hxr
  · intro x hx
    exact hseen _ (h3 x (hruns ▸ hx))
  · intro x hx
    exact Nat.lt_of_lt_of_le (h4 x (hruns ▸ hx)) hnext
  · rw [hruns]; exact h5
  · intro rid
    rw [hevents rid, hterm rid, h6 rid]

/-- Invariant transfer through an in-place update of the run objects that
preserves identity, request id and status. -/
theorem inv_transfer_mapped (s s' : SessionState) (g : ActiveRun → ActiveRun)
    (hg_id : ∀ x, (g x).runId = x.runId)
    (hg_rid : ∀ x, (g x).requestId = x.requestId)
    (hg_st : ∀ x, (g x).status = x.status)
    (hruns : s'.runs = s.runs.map g)
    (hact : s'.activeRunId = s.activeRunId)
    (hseen : ∀ x ∈ s.seenRequestIds, x ∈ s'.seenRequestIds)
    (hnext : s.nextId ≤ s'.nextId)
    (hevents : ∀ rid, countTerminal s'.events rid = countTerminal s.events rid)
    (h : Inv s) : Inv s' := by
  obtain ⟨h1, h2, h3, h4, h5, h6⟩ := h
  have hactive : s'.theActiveRun = s.theActiveRun.map g := by
    unfold SessionState.theActiveRun SessionState.findRun
    rw [hruns, hact]
    cases s.activeRunId with
    | none => rfl
    | some aid =>
      simp only [Option.some_bind]
      exact find?_map_pred_preserved s.runs g _ (fun a => by simp [hg_id])
  have hterm : ∀ rid, hasTerminalRun s' rid = hasTerminalRun s rid := by
    intro rid
    unfold hasTerminalRun
    rw [hruns, List.any_map]
    have hfun : ((fun r : ActiveRun => r.requestId == rid && !(r.status == RunStatus.running)) ∘ g)
        = (fun r : ActiveRun => r.requestId == rid && !(r.status == RunStatus.running)) := by
      funext x
      simp [Function.comp, hg_rid, hg_st]
    rw [hfun]
  refine ⟨?_, ?_, ?_, ?_, ?_, ?_⟩
  · intro r hr
    rw [hactive] at hr
    match hs : s.theActiveRun with
    | none => rw [hs] at hr; simp at hr
    | some r0 =>
      rw [hs] at hr
      have : r = g r0 := by simpa using hr.symm
      rw [this, hg_st]
      exact h1 r0 hs
  · intro r hr x hx hxr
    rw [hactive] at hr
    rw [hruns] at hx
    obtain ⟨y, hy, rfl⟩ := List.mem_map.mp hx
    match hs : s.theActiveRun with
    | none => rw [hs] at hr; simp at hr
    | some r0 =>
      rw [hs] at hr
      have hr0 : r = g r0 := by simpa using hr.symm
      rw [hg_st]
      refine h2 r0 hs y hy ?_
      rw [hg_rid] at hxr
      rw [hxr, hr0, hg_rid]
  · intro x hx
    rw [hruns] at hx
    obtain ⟨y, hy, rfl⟩ := List.mem_map.mp hx
    rw [hg_rid]
    exact hseen _ (h3 y hy)
  · intro x hx
    rw [hruns] at hx
    obtain ⟨y, hy, rfl⟩ := List.mem_map.mp hx
    rw [hg_id]
    exact Nat.lt_of_lt_of_le (h4 y hy) hnext
  · rw [hruns, List.map_map]
    have : ((fun r => r.runId) ∘ g) = (fun r : ActiveRun => r.runId) := by
      funext x
      exact hg_id x
    rw [this]
    exact h5
  · intro rid
    rw [hevents rid, hterm rid, h6 rid]

theorem inv_emit_nonterminal (s : SessionState) (e : Event)
    (hnt : ∀ rid, isTerminalFor rid e = false) (h : Inv s) : Inv (s.emit e) := by
  refine inv_transfer s (s.emit e) rfl rfl (fun x hx => hx) (Nat.le_refl _) ?_ h
  intro rid
  exact countTerminal_append_nonterminal s.events e rid (hnt rid)

theorem inv_addMessage (s : SessionState) (role : String) (content : Option String)
    (meta : Meta) (h : Inv s) : Inv (s.addMessage role content meta).1 :=
  inv_transfer s _ rfl rfl (fun x hx => hx) (Nat.le_succ _) (fun _ => rfl) h

theorem inv_bumpNextId (s : SessionState) (h : Inv s) :
    Inv { s with nextId := s.nextId + 1 } :=
  inv_transfer s _ rfl rfl (fun x hx => hx) (Nat.le_succ _) (fun _ => rfl) h

theorem inv_updateMsgs (s : SessionState) (f : List Msg → List Msg) (h : Inv s) :
    Inv { s with msgs := f s.msgs } :=
  inv_transfer s _ rfl rfl (fun x hx => hx) (Nat.le_refl _) (fun _ => rfl) h

theorem inv_updateRun_preserving (s : SessionState) (i : Nat) (g : ActiveRun → ActiveRun)
    (hg_id : ∀ x, (g x).runId = x.runId)
    (hg_rid : ∀ x, (g x).requestId = x.requestId)
    (hg_st : ∀ x, (g x).status = x.status)
    (h : Inv s) : Inv (s.updateRun i g) := by
  refine inv_transfer_mapped s (s.updateRun i g) (fun x => if x.runId = i then g x else x)
    ?_ ?_ ?_ rfl rfl (fun x hx => hx) (Nat.le_refl _) (fun _ => rfl) h
  · intro x; by_cases hx : x.runId = i <;> simp [hx, hg_id]
  · intro x; by_cases hx : x.runId = i <;> simp [hx, hg_rid]
  · intro x; by_cases hx : x.runId = i <;> simp [hx, hg_st]

theorem inv_on_chat_usage (s : SessionState) (rid : String) (h : Inv s) :
    Inv (on_chat_usage s rid) :=
  inv_emit_nonterminal s _ (fun _ => rfl) h

theorem inv_on_tool_end (s : SessionState) (rid tool tcId : String) (ok : Bool) (ms : Nat)
    (h : Inv s) : Inv (on_tool_end s rid tool tcId ok ms) :=
  inv_emit_nonterminal s _ (fun _ => rfl) h

theorem inv_on_tool_output (s : SessionState) (rid tool tcId out : String) (h : Inv s) :
    Inv (on_tool_output s rid tool tcId out) := by
  unfold on_tool_output
  exact inv_emit_nonterminal _ _ (fun _ => rfl) (inv_addMessage s _ _ _ h)

theorem inv_on_tool_start (s : SessionState) (rid tool tcId ap : String) (h : Inv s) :
    Inv (on_tool_start s rid tool tcId ap) := by
  unfold on_tool_start
  match hs : s.theActiveRun with
  | none =>
    simp only [hs]
    exact inv_emit_nonterminal _ _ (fun _ => rfl) h
  | some r =>
    simp only [hs]
    by_cases hr : r.requestId = rid
    · rw [if_pos hr]
      exact inv_emit_nonterminal _ _ (fun _ => rfl)
        (inv_updateRun_preserving s r.runId _ (fun _ => rfl) (fun _ => rfl) (fun _ => rfl) h)
    · rw [if_neg hr]
      exact inv_emit_nonterminal _ _ (fun _ => rfl) h

theorem inv_on_assistant_tool_calls (s : SessionState) (rid : String) (tcs : List ToolCall)
    (h : Inv s) : Inv (on_assistant_tool_calls s rid tcs) := by
  unfold on_assistant_tool_calls
  match hs : s.theActiveRun with
  | none => simp only [hs]; exact h
  | some r =>
    simp only [hs]
    by_cases hr : r.requestId ≠ rid
    · rw [if_pos hr]; exact h
    · rw [if_neg hr]
      match hoa : r.openAssistant with
      | none => exact h
      | some oa => exact inv_updateMsgs s _ h

theorem inv_on_chat_delta (s : SessionState) (rid text : String) (h : Inv s) :
    Inv (on_chat_delta s rid text) := by
  unfold on_chat_delta
  match hs : s.theActiveRun with
  | none => simp only [hs]; exact h
  | some r =>
    simp only [hs]
    by_cases hr : r.requestId ≠ rid
    · rw [if_pos hr]; exact h
    · rw [if_neg hr]
      have hbase : ∀ s0 : SessionState, Inv s0 →
          Inv (match s0.theActiveRun with
               | some r2 =>
                 match r2.openAssistant with
                 | some oa =>
                   (s0.updateRun r2.runId (fun x =>
                     { x with openAssistant := some ⟨oa.messageId, oa.bufferText ++ text⟩ })).emit
                     (Event.chatDelta rid text oa.messageId)
                 | none => s0
               | none => s0) := by
        intro s0 h0
        match hs0 : s0.theActiveRun with
        | none => simp only [hs0]; exact h0
        | some r2 =>
          simp only [hs0]
          match hoa2 : r2.openAssistant with
          | none => exact h0
          | some oa =>
            exact inv_emit_nonterminal _ _ (fun _ => rfl)
              (inv_updateRun_preserving s0 r2.runId _
                (fun _ => rfl) (fun _ => rfl) (fun _ => rfl) h0)
      match hoa : r.openAssistant with
      | some _ => exact hbase s h
      | none =>
        refine hbase _ ?_
        refine inv_emit_nonterminal _ _ (fun _ => rfl) ?_
        refine inv_updateRun_preserving _ r.runId _
          (fun _ => rfl) (fun _ => rfl) (fun _ => rfl) ?_
        refine inv_addMessage _ _ _ _ ?_
        refine inv_emit_nonterminal _ _ (fun _ => rfl) ?_
        refine inv_updateRun_preserving _ r.runId _
          (fun _ => rfl) (fun _ => rfl) (fun _ => rfl) ?_
        exact inv_addMessage _ _ _ _ (inv_bumpNextId s h)

theorem any_congr_mem {α : Type} (l : List α) (p q : α → Bool)
    (h : ∀ x ∈ l, p x = q x) : l.any p = l.any q := by
  induction l with
  | nil => rfl
  | cons a l ih =>
    simp only [List.any_cons]
    rw [h a (by simp), ih (fun x hx => h x (by simp [hx]))]

theorem hasTerminalRun_false_of_active (s : SessionState) (r : ActiveRun)
    (hact : s.theActiveRun = some r) (h : Inv s) :
    hasTerminalRun s r.requestId = false := by
  obtain ⟨h1, h2, _, _, _, _⟩ := h
  unfold hasTerminalRun
  rw [List.any_eq_false]
  intro x hx
  by_cases hxr : x.requestId = r.requestId
  · have hst := h2 r hact x hx hxr
    simp [hst, hxr]
  · simp [hxr]

theorem inv_cancel_inflight (s : SessionState) (reason : String) (h : Inv s) :
    Inv (cancel_inflight_locked s reason) := by
  match hact : s.theActiveRun with
  | none =>
    unfold cancel_inflight_locked
    rw [hact]
    exact h
  | some r =>
    have hrun := h.1 r hact
    have hnoterm := hasTerminalRun_false_of_active s r hact h
    rw [cancel_inflight_locked_running s reason r hact hrun]
    obtain ⟨h1, h2, h3, h4, h5, h6⟩ := h
    obtain ⟨aid, haid, hfind, hrid⟩ := theActiveRun_eq_some hact
    have hrmem : r ∈ s.runs := List.mem_of_find?_eq_some hfind
    have huniq : ∀ x ∈ s.runs, x.runId = r.runId → x = r := by
      intro x hx hxi
      exact find?_runId_unique s.runs aid r h5 hfind x hx (by rw [hxi, hrid])
    refine ⟨?_, ?_, ?_, ?_, ?_, ?_⟩
    · intro r' hr'
      simp [SessionState.theActiveRun] at hr'
    · intro r' hr'
      simp [SessionState.theActiveRun] at hr'
    · intro x hx
      obtain ⟨y, hy, rfl⟩ := List.mem_map.mp hx
      by_cases hyy : y.runId = r.runId
      · rw [if_pos hyy]; exact h3 y hy
      · rw [if_neg hyy]; exact h3 y hy
    · intro x hx
      obtain ⟨y, hy, rfl⟩ := List.mem_map.mp hx
      by_cases hyy : y.runId = r.runId
      · rw [if_pos hyy]; exact h4 y hy
      · rw [if_neg hyy]; exact h4 y hy
    · rw [List.map_map]
      have hfun : ((fun x : ActiveRun => x.runId) ∘ (fun x =>
          if x.runId = r.runId then { x with status := RunStatus.cancelled, cancelEvent := true }
          else x)) = fun x : ActiveRun => x.runId := by
        funext x
        by_cases hx : x.runId = r.runId <;> simp [Function.comp, hx]
      rw [hfun]
      exact h5
    · intro rid1
      show countTerminal (s.events ++ [Event.runCancelled r.requestId reason]) rid1 = _
      by_cases hre : rid1 = r.requestId
      · rw [hre]
        rw [countTerminal_append_terminal _ _ _ (by simp [isTerminalFor]), h6 r.requestId,
          hnoterm]
        have hterm1 : (s.runs.map (fun x =>
            if x.runId = r.runId then
              { x with status := RunStatus.cancelled, cancelEvent := true } else x)).any
            (fun x => x.requestId == r.requestId && !(x.status == RunStatus.running)) = true := by
          rw [List.any_eq_true]
          refine ⟨(fun x => if x.runId = r.runId then
              { x with status := RunStatus.cancelled, cancelEvent := true } else x) r,
            List.mem_map_of_mem _ hrmem, ?_⟩
          simp
        show (0 : Nat) + 1 = if (s.runs.map _).any _ then 1 else 0
        rw [hterm1]
        rfl
      · rw [countTerminal_append_nonterminal _ _ _
          (by simp [isTerminalFor, beq_false_of_ne (fun hh => hre hh.symm)]), h6 rid1]
        have hterm1 : (s.runs.map (fun x =>
            if x.runId = r.runId then
              { x with status := RunStatus.cancelled, cancelEvent := true } else x)).any
            (fun x => x.requestId == rid1 && !(x.status == RunStatus.running)) =
            s.runs.any (fun x => x.requestId == rid1 && !(x.status == RunStatus.running)) := by
          rw [List.any_map]
          apply any_congr_mem
          intro x hx
          by_cases hxx : x.runId = r.runId
          · have hxr := huniq x hx hxx
            subst hxr
            simp [Function.comp, hxx, beq_false_of_ne (fun hh => hre hh.symm)]
          · simp [Function.comp, hxx]
        show _ = if (s.runs.map _).any _ then 1 else 0
        rw [hterm1]
        rfl

/-- Terminalizing the active run with one terminal event for its request
id preserves the invariant. -/
theorem inv_terminalize (s : SessionState) (r : ActiveRun) (g0 : ActiveRun → ActiveRun)
    (newStatus : RunStatus) (e : Event) (M : List Msg)
    (hact : s.theActiveRun = some r) (h : Inv s)
    (hg_id : ∀ x, (g0 x).runId = x.runId)
    (hg_rid : ∀ x, (g0 x).requestId = x.requestId)
    (hg_st : ∀ x, (g0 x).status = newStatus)
    (hns : (newStatus == RunStatus.running) = false)
    (hterm_self : isTerminalFor r.requestId e = true)
    (hterm_other : ∀ rid1, rid1 ≠ r.requestId → isTerminalFor rid1 e = false) :
    Inv { s with
      runs := s.runs.map (fun x => if x.runId = r.runId then g0 x else x),
      msgs := M,
      events := s.events ++ [e],
      activeRunId := none } := by
  have hnoterm := hasTerminalRun_false_of_active s r hact h
  obtain ⟨h1, h2, h3, h4, h5, h6⟩ := h
  obtain ⟨aid, haid, hfind, hrid⟩ := theActiveRun_eq_some hact
  have hrmem : r ∈ s.runs := List.mem_of_find?_eq_some hfind
  have huniq : ∀ x ∈ s.runs, x.runId = r.runId → x = r := by
    intro x hx hxi
    exact find?_runId_unique s.runs aid r h5 hfind x hx (by rw [hxi, hrid])
  refine ⟨?_, ?_, ?_, ?_, ?_, ?_⟩
  · intro r' hr'
    simp [SessionState.theActiveRun] at hr'
  · intro r' hr'
    simp [SessionState.theActiveRun] at hr'
  · intro x hx
    obtain ⟨y, hy, rfl⟩ := List.mem_map.mp hx
    by_cases hyy : y.runId = r.runId
    · rw [if_pos hyy, hg_rid]; exact h3 y hy
    · rw [if_neg hyy]; exact h3 y hy
  · intro x hx
    obtain ⟨y, hy, rfl⟩ := List.mem_map.mp hx
    by_cases hyy : y.runId = r.runId
    · rw [if_pos hyy, hg_id]; exact h4 y hy
    · rw [if_neg hyy]; exact h4 y hy
  · rw [List.map_map]
    have hfun : ((fun x : ActiveRun => x.runId) ∘ (fun x =>
        if x.runId = r.runId then g0 x else x)) = fun x : ActiveRun => x.runId := by
      funext x
      by_cases hx : x.runId = r.runId <;> simp [Function.comp, hx, hg_id]
    rw [hfun]
    exact h5
  · intro rid1
    show countTerminal (s.events ++ [e]) rid1 = _
    by_cases hre : rid1 = r.requestId
    · rw [hre]
      rw [countTerminal_append_terminal _ _ _ hterm_self, h6 r.requestId, hnoterm]
      have hterm1 : (s.runs.map (fun x => if x.runId = r.runId then g0 x else x)).any
          (fun x => x.requestId == r.requestId && !(x.status == RunStatus.running)) = true := by
        rw [List.any_eq_true]
        refine ⟨(fun x => if x.runId = r.runId then g0 x else x) r,
          List.mem_map_of_mem _ hrmem, ?_⟩
        simp [hg_rid, hg_st, hns]
      show (0 : Nat) + 1 = if (s.runs.map _).any _ then 1 else 0
      rw [hterm1]
      rfl
    · rw [countTerminal_append_nonterminal _ _ _ (hterm_other rid1 hre), h6 rid1]
      have hterm1 : (s.runs.map (fun x => if x.runId = r.runId then g0 x else x)).any
          (fun x => x.requestId == rid1 && !(x.status == RunStatus.running)) =
          s.runs.any (fun x => x.requestId == rid1 && !(x.status == RunStatus.running)) := by
        rw [List.any_map]
        apply any_congr_mem
        intro x hx
        by_cases hxx : x.runId = r.runId
        · have hxr := huniq x hx hxx
          subst hxr
          simp [Function.comp, hxx, hg_rid, beq_false_of_ne (fun hh => hre hh.symm)]
        · simp [Function.comp, hxx]
      show _ = if (s.runs.map _).any _ then 1 else 0
      rw [hterm1]
      rfl

/-- Characterization of the natural-completion terminal block on a
matching active run. -/
theorem run_generation_finish_completed_char (s : SessionState) (rid : String) (r : ActiveRun)
    (hact : s.theActiveRun = some r) (hrid : r.requestId = rid) :
    run_generation_finish s rid TaskOutcome.completed =
      { s with
        runs := s.runs.map (fun x =>
          if x.runId = r.runId then { x with status := RunStatus.done } else x),
        msgs := (match r.openAssistant with
                 | some oa => s.msgs.map (fun m =>
                     if m.id = oa.messageId then { m with content := some oa.bufferText } else m)
                 | none => s.msgs),
        events := s.events ++ [Event.chatDone rid (r.openAssistant.map (fun oa => oa.messageId))],
        activeRunId := none } := by
  unfold run_generation_finish
  simp only [hact]
  rw [if_pos hrid]
  match hoa : r.openAssistant with
  | some oa =>
    simp [hoa, SessionState.updateRun, SessionState.updateMessageContent, SessionState.emit]
  | none =>
    simp [hoa, SessionState.updateRun, SessionState.emit]

theorem inv_run_generation_finish (s : SessionState) (rid : String) (outcome : TaskOutcome)
    (h : Inv s) : Inv (run_generation_finish s rid outcome) := by
  match outcome with
  | TaskOutcome.completed =>
    match hact : s.theActiveRun with
    | none =>
      unfold run_generation_finish
      simp only [hact]
      exact h
    | some r =>
      by_cases hr : r.requestId = rid
      · rw [run_generation_finish_completed_char s rid r hact hr]
        refine inv_terminalize s r (fun x => { x with status := RunStatus.done })
          RunStatus.done _ _ hact h (fun _ => rfl) (fun _ => rfl) (fun _ => rfl) rfl ?_ ?_
        · simp [isTerminalFor, hr]
        · intro rid1 h1
          have hne : rid ≠ rid1 := fun hh => h1 ((hr.trans hh).symm)
          simp [isTerminalFor, beq_false_of_ne hne]
      · unfold run_generation_finish
        simp only [hact]
        rw [if_neg hr]
        exact h
  | TaskOutcome.raised msg =>
    match hact : s.theActiveRun with
    | none =>
      unfold run_generation_finish
      simp only [hact]
      exact h
    | some r =>
      by_cases hr : r.requestId = rid
      · unfold run_generation_finish
        simp only [hact]
        rw [if_pos hr]
        refine inv_terminalize s r (fun x => { x with status := RunStatus.error })
          RunStatus.error (Event.runError rid msg) s.msgs hact h
          (fun _ => rfl) (fun _ => rfl) (fun _ => rfl) rfl ?_ ?_
        · simp [isTerminalFor, hr]
        · intro rid1 h1
          have hne : rid ≠ rid1 := fun hh => h1 ((hr.trans hh).symm)
          simp [isTerminalFor, beq_false_of_ne hne]
      · unfold run_generation_finish
        simp only [hact]
        rw [if_neg hr]
        exact h
  | TaskOutcome.cancelledError =>
    match hact : s.theActiveRun with
    | none =>
      unfold run_generation_finish
      simp only [hact]
      exact h
    | some r =>
      unfold run_generation_finish
      simp only [hact]
      by_cases hr : r.requestId = rid
      · rw [if_pos hr]
        exact inv_cancel_inflight s _ h
      · rw [if_neg hr]
        exact h

theorem find?_append_of_none {α : Type} (l₁ l₂ : List α) (p : α → Bool)
    (h : ∀ x ∈ l₁, p x = false) : (l₁ ++ l₂).find? p = l₂.find? p := by
  induction l₁ with
  | nil => rfl
  | cons x xs ih =>
    rw [List.cons_append, List.find?_cons_of_neg _ (by simp [h x (by simp)])]
    exact ih (fun y hy => h y (by simp [hy]))

/-- The run-creation phase of `submit_user_message` preserves the
invariant, provided every pre-existing run of the submitted request id is
still running. -/
theorem inv_create_run (s1 : SessionState) (rid c mdl : String)
    (h : Inv s1)
    (hall : ∀ x ∈ s1.runs, x.requestId = rid → x.status = RunStatus.running) :
    Inv { activeRunId := some (s1.nextId + 1),
          runs := s1.runs ++ [⟨s1.nextId + 1, rid, mdl, RunStatus.running, false, none, []⟩],
          seenRequestIds := if rid ∈ s1.seenRequestIds then s1.seenRequestIds
                            else s1.seenRequestIds ++ [rid],
          msgs := s1.msgs ++ [⟨s1.nextId, "user", some c, { requestId := some rid }⟩],
          events := s1.events ++ [Event.chatStarted rid none],
          nextId := s1.nextId + 2 } := by
  obtain ⟨h1, h2, h3, h4, h5, h6⟩ := h
  have hfind : (s1.runs ++ [(⟨s1.nextId + 1, rid, mdl, RunStatus.running, false, none,
      []⟩ : ActiveRun)]).find? (fun r => r.runId == s1.nextId + 1) =
      some ⟨s1.nextId + 1, rid, mdl, RunStatus.running, false, none, []⟩ := by
    rw [find?_append_of_none]
    · simp [List.find?]
    · intro x hx
      have hlt := h4 x hx
      simp only [beq_eq_false_iff_ne]
      omega
  have hact : SessionState.theActiveRun
      { activeRunId := some (s1.nextId + 1),
        runs := s1.runs ++ [⟨s1.nextId + 1, rid, mdl, RunStatus.running, false, none, []⟩],
        seenRequestIds := if rid ∈ s1.seenRequestIds then s1.seenRequestIds
                          else s1.seenRequestIds ++ [rid],
        msgs := s1.msgs ++ [⟨s1.nextId, "user", some c, { requestId := some rid }⟩],
        events := s1.events ++ [Event.chatStarted rid none],
        nextId := s1.nextId + 2 } =
      some ⟨s1.nextId + 1, rid, mdl, RunStatus.running, false, none, []⟩ := hfind
  refine ⟨?_, ?_, ?_, ?_, ?_, ?_⟩
  · intro r hr
    have heq := hact.symm.trans hr
    injection heq with heq
    rw [← heq]
  · intro r hr x hx hxi
    have heq := hact.symm.trans hr
    injection heq with heq
    rw [← heq] at hxi
    rcases List.mem_append.mp hx with hx1 | hx2
    · exact hall x hx1 hxi
    · have hxe : x = ⟨s1.nextId + 1, rid, mdl, RunStatus.running, false, none, []⟩ := by
        simpa using hx2
      rw [hxe]
  · intro x hx
    rcases List.mem_append.mp hx with hx1 | hx2
    · have hs := h3 x hx1
      by_cases hmem : rid ∈ s1.seenRequestIds
      · rw [if_pos hmem]; exact hs
      · rw [if_neg hmem]; exact List.mem_append_left _ hs
    · have hxe : x = ⟨s1.nextId + 1, rid, mdl, RunStatus.running, false, none, []⟩ := by
        simpa using hx2
      rw [hxe]
      by_cases hmem : rid ∈ s1.seenRequestIds
      · rw [if_pos hmem]; exact hmem
      · rw [if_neg hmem]
        exact List.mem_append_right _ (List.mem_singleton.mpr rfl)
  · intro x hx
    rcases List.mem_append.mp hx with hx1 | hx2
    · exact Nat.lt_succ_of_lt (Nat.lt_succ_of_lt (h4 x hx1))
    · have hxe : x = ⟨s1.nextId + 1, rid, mdl, RunStatus.running, false, none, []⟩ := by
        simpa using hx2
      rw [hxe]
      exact Nat.lt_succ_self _
  · rw [List.map_append, List.nodup_append]
    refine ⟨h5, by simp, ?_⟩
    intro a ha hb
    simp only [List.map_cons, List.map_nil, List.mem_singleton] at hb
    obtain ⟨y, hy, rfl⟩ := List.mem_map.mp ha
    have hlt := h4 y hy
    omega
  · intro rid1
    show countTerminal (s1.events ++ [Event.chatStarted rid none]) rid1 = _
    rw [countTerminal_append_nonterminal s1.events (Event.chatStarted rid none) rid1 rfl,
      h6 rid1]
    have hh : hasTerminalRun
        { activeRunId := some (s1.nextId + 1),
          runs := s1.runs ++ [⟨s1.nextId + 1, rid, mdl, RunStatus.running, false, none, []⟩],
          seenRequestIds := if rid ∈ s1.seenRequestIds then s1.seenRequestIds
                            else s1.seenRequestIds ++ [rid],
          msgs := s1.msgs ++ [⟨s1.nextId, "user", some c, { requestId := some rid }⟩],
          events := s1.events ++ [Event.chatStarted rid none],
          nextId := s1.nextId + 2 } rid1 = hasTerminalRun s1 rid1 := by
      unfold hasTerminalRun
      show (s1.runs ++ [(⟨s1.nextId + 1, rid, mdl, RunStatus.running, false, none,
          []⟩ : ActiveRun)]).any _ = s1.runs.any _
      rw [List.any_append]
      simp
    rw [hh]

/-- `submit_user_message` preserves the invariant. -/
theorem inv_submit (s : SessionState) (rid content : String) (model : Option String)
    (h : Inv s) : Inv (submit_user_message s rid content model) := by
  simp only [submit_user_message]
  by_cases hc : pyStrip content = ""
  · rw [if_pos hc]; exact h
  · rw [if_neg hc]
    by_cases hrep : isReplay s rid = true
    · rw [if_pos hrep]
      exact inv_emit_nonterminal s _ (fun _ => rfl) h
    · rw [if_neg hrep]
      by_cases hcan : shouldCancelInflight s rid = true
      · rw [if_pos hcan]
        have hex : ∃ r, s.theActiveRun = some r ∧ r.status = RunStatus.running ∧
            r.requestId ≠ rid := by
          unfold shouldCancelInflight at hcan
          match hactx : s.theActiveRun with
          | none =>
            simp only [hactx] at hcan
            simp at hcan
          | some r =>
            simp only [hactx] at hcan
            simp at hcan
            exact ⟨r, rfl, hcan.1, hcan.2⟩
        obtain ⟨r, hact, hrun, hdiff⟩ := hex
        have hseen : rid ∉ s.seenRequestIds := by
          intro hmem
          apply hrep
          unfold isReplay
          simp only [hact]
          simp [hmem, hdiff]
        have hall : ∀ x ∈ (cancel_inflight_locked s "new_message").runs,
            x.requestId = rid → x.status = RunStatus.running := by
          intro x hx hxr
          exfalso
          rw [cancel_inflight_locked_running s "new_message" r hact hrun] at hx
          obtain ⟨y, hy, rfl⟩ := List.mem_map.mp hx
          have hyr : y.requestId = rid := by
            by_cases hid : y.runId = r.runId
            · rw [if_pos hid] at hxr; exact hxr
            · rw [if_neg hid] at hxr; exact hxr
          exact hseen (hyr ▸ h.2.2.1 y hy)
        exact inv_create_run (cancel_inflight_locked s "new_message") rid (pyStrip content)
          (chosenModel model) (inv_cancel_inflight s "new_message" h) hall
      · rw [if_neg hcan]
        have hall : ∀ x ∈ s.runs, x.requestId = rid → x.status = RunStatus.running := by
          intro x hx hxr
          match hactx : s.theActiveRun with
          | none =>
            have hseen : rid ∉ s.seenRequestIds := by
              intro hmem
              apply hrep
              unfold isReplay
              simp only [hactx]
              simp [hmem]
            exact (hseen (hxr ▸ h.2.2.1 x hx)).elim
          | some r =>
            have hrun := h.1 r hactx
            have hreq : r.requestId = rid := by
              by_contra hne
              apply hcan
              unfold shouldCancelInflight
              simp only [hactx]
              simp [hrun, hne]
            exact h.2.1 r hactx x hx (hxr.trans hreq.symm)
        exact inv_create_run s rid (pyStrip content) (chosenModel model) h hall

/-- Every orchestrator step preserves the invariant. -/
theorem inv_step (s : SessionState) (l : Label) (h : Inv s) : Inv (step s l) := by
  cases l with
  | submit rid content model => exact inv_submit s rid content model h
  | deltaTok rid text => exact inv_on_chat_delta s rid text h
  | assistantToolCalls rid tcs => exact inv_on_assistant_tool_calls s rid tcs h
  | usage rid => exact inv_on_chat_usage s rid h
  | toolStartEv rid tool tcId ap => exact inv_on_tool_start s rid tool tcId ap h
  | toolEndEv rid tool tcId ok ms => exact inv_on_tool_end s rid tool tcId ok ms h
  | toolOutputEv rid tool tcId out => exact inv_on_tool_output s rid tool tcId out h
  | taskFinished rid outc => exact inv_run_generation_finish s rid outc h

theorem inv_runTrace (labels : List Label) : ∀ s : SessionState, Inv s →
    Inv (runTrace s labels) := by
  induction labels with
  | nil => intro s h; exact h
  | cons l ls ih => intro s h; exact ih (step s l) (inv_step s l h)

/-- **C5.** For every run, the client receives exactly one terminal event
(`chat.done`, `run.error`, or `run.cancelled`) — never zero and never
more than one — regardless of whether the run completes naturally, raises
an exception, or is cancelled: along any trace of orchestrator steps from
a fresh session, the number of terminal events delivered for a request id
is exactly one precisely from the step at which one of its runs reaches a
terminal status, and zero before. -/
theorem c5_exactly_one_terminal_event_per_run (labels : List Label) (rid : String) :
    countTerminal (runTrace initState labels).events rid =
      if hasTerminalRun (runTrace initState labels) rid then 1 else 0 :=
  (inv_runTrace labels initState inv_initState).2.2.2.2.2 rid

end Ochre
